import Mathlib

/-!
Verification development for a GFF/GTF annotation toolkit consisting of
`ParseGffinfo.py` (class `ParseGFFinfo`), `Reformat2GFF.py` (class
`ReformatGFF`), `parse_protein_coding_bt.py` (class `biotype_protein_coding`)
and `gff_cleaner.py`.  Python strings are embedded as `List Char`; each Python
string primitive used by the code is given an executable Lean counterpart, and
each method under scrutiny is translated statement by statement.
-/

namespace GffSpec

/-- Python `str` values are embedded as lists of characters. -/
abbrev Chars := List Char

/-- Embed a Lean string literal as a `Chars` value. -/
def str (s : String) : Chars := s.data

/-- Python `str.isspace` on one character (the whitespace set used by
`str.split()`, `str.strip()` and `str.rstrip()` for ASCII input). -/
def pyIsSpace (c : Char) : Bool :=
  decide (c = ' ') || decide (c = '\t') || decide (c = '\n') || decide (c = '\r')
    || decide (c = '\x0b') || decide (c = '\x0c')

/-- Membership of a character in a string: Python `c in s` for a
one-character `c`. -/
def charIn (c : Char) (s : Chars) : Bool := s.any (fun d => decide (d = c))

/-- Membership of a string in a list of strings: Python `x in someSet`
for a set of strings (the sets are embedded as duplicate-free lists). -/
def memS (x : Chars) (l : List Chars) : Bool := l.any (fun y => decide (y = x))

/-- Python `set.add` on a set of strings embedded as a duplicate-free list:
appends the element only when absent. -/
def insertIfAbsent (l : List Chars) (x : Chars) : List Chars :=
  if memS x l then l else l ++ [x]

/-- `set.add` for a set of string pairs (used for `defaultdict(set)` whose
contents we flatten into (key, element) pairs). -/
def insertPairIfAbsent (l : List (Chars × Chars)) (x : Chars × Chars) :
    List (Chars × Chars) :=
  if l.any (fun y => decide (y = x)) then l else l ++ [x]

/-- Python dict lookup where the dict is embedded as the insertion-ordered
list of key/value assignments: the last assignment to a key wins, exactly as
repeated assignments to one key in a dict comprehension do. -/
def lookupLast (d : List (Chars × Chars)) (k : Chars) : Option Chars :=
  d.foldl (fun acc kv => if kv.1 = k then some kv.2 else acc) none

/-- Python `key in dict`. -/
def hasKey (d : List (Chars × Chars)) (k : Chars) : Bool :=
  (lookupLast d k).isSome

/-- Python `str.lstrip()` (no argument): drop leading whitespace. -/
def pyLstrip (s : Chars) : Chars := s.dropWhile pyIsSpace

/-- Python `str.rstrip()` (no argument): drop trailing whitespace. -/
def pyRstrip (s : Chars) : Chars := (s.reverse.dropWhile pyIsSpace).reverse

/-- Python `str.strip()` (no argument). -/
def pyStrip (s : Chars) : Chars := pyRstrip (pyLstrip s)

/-- Python `str.lower()` (ASCII case folding, which is all the inputs use). -/
def toLowerS (s : Chars) : Chars := s.map Char.toLower

/-- Helper for `splitCh`: accumulator holds the current token reversed. -/
def splitChAux (d : Char) : Chars → Chars → List Chars
  | [], acc => [acc.reverse]
  | c :: cs, acc =>
    if c = d then acc.reverse :: splitChAux d cs []
    else splitChAux d cs (c :: acc)

/-- Python `str.split(sep)` for a one-character separator `sep`: keeps empty
tokens, `"".split(sep) == [""]`. -/
def splitCh (d : Char) (s : Chars) : List Chars := splitChAux d s []

/-- Helper for `pySplitWs`: accumulator holds the current token reversed. -/
def splitWsAux : Chars → Chars → List Chars
  | [], acc => if acc.isEmpty then [] else [acc.reverse]
  | c :: cs, acc =>
    if pyIsSpace c then
      (if acc.isEmpty then splitWsAux cs [] else acc.reverse :: splitWsAux cs [])
    else splitWsAux cs (c :: acc)

/-- Python `str.split()` with no argument: split on runs of arbitrary
whitespace, discarding empty tokens. -/
def pySplitWs (s : Chars) : List Chars := splitWsAux s []

/-- Boolean "`p` is a prefix of `s`". -/
def isPrefixB : Chars → Chars → Bool
  | [], _ => true
  | _ :: _, [] => false
  | a :: as, b :: bs => decide (a = b) && isPrefixB as bs

/-- Python substring containment `p in s` for arbitrary strings. -/
def containsSub (p : Chars) : Chars → Bool
  | [] => isPrefixB p []
  | c :: cs => isPrefixB p (c :: cs) || containsSub p cs

/-- Helper for `splitAtFirstC`. -/
def splitAtFirstCAux (a : Char) : Chars → Chars → Chars × Chars
  | [], acc => (acc.reverse, [])
  | c :: cs, acc =>
    if c = a then (acc.reverse, cs) else splitAtFirstCAux a cs (c :: acc)

/-- Python `s.split(a, 1)` for a one-character separator occurring in `s`,
returned as the pair (before first occurrence, after first occurrence). -/
def splitAtFirstC (a : Char) (s : Chars) : Chars × Chars :=
  splitAtFirstCAux a s []

/-- Helper for `pySplitS`: split on the non-empty separator `h :: t`,
left to right, non-overlapping (Python `str.split(sep)` semantics).  The
`fuel` argument only makes the recursion structural; every step consumes at
least one character, so with initial fuel `s.length` the fuel-exhausted
branch is never taken. -/
def splitStrAux (h : Char) (t : Chars) : Nat → Chars → Chars → List Chars
  | _, [], acc => [acc.reverse]
  | 0, s, acc => [acc.reverse ++ s]
  | fuel + 1, c :: cs, acc =>
    if c = h && isPrefixB t cs then
      acc.reverse :: splitStrAux h t fuel (cs.drop t.length) []
    else splitStrAux h t fuel cs (c :: acc)

/-- Python `str.split(sep)` for an arbitrary separator string.  Python raises
on an empty separator; the code only ever passes non-empty separators, and we
return `[s]` in that (unreached) case. -/
def pySplitS (sep : Chars) (s : Chars) : List Chars :=
  match sep with
  | [] => [s]
  | h :: t => splitStrAux h t s.length s []

/-- Helper for `splitAtFirstS`. -/
def splitAtFirstSAux (h : Char) (t : Chars) : Chars → Chars → Chars × Chars
  | [], acc => (acc.reverse, [])
  | c :: cs, acc =>
    if c = h && isPrefixB t cs then (acc.reverse, cs.drop t.length)
    else splitAtFirstSAux h t cs (c :: acc)

/-- Python `s.split(sep, 1)` for an arbitrary non-empty separator string,
as the pair (before first occurrence, after first occurrence). -/
def splitAtFirstS (sep : Chars) (s : Chars) : Chars × Chars :=
  match sep with
  | [] => ([], s)
  | h :: t => splitAtFirstSAux h t s []

/-- Python `sep.join(parts)`. -/
def joinWith (sep : Chars) : List Chars → Chars
  | [] => []
  | [p] => p
  | p :: q :: ps => p ++ sep ++ joinWith sep (q :: ps)

/-- Python `line.startswith("#")`. -/
def isCommentL (l : Chars) : Bool :=
  match l with
  | [] => false
  | c :: _ => decide (c = '#')

/-!
## Dialect detection (`ParseGFFinfo.detect_attr_format`, lines 46-192 of
`ParseGffinfo.py`, and `ReformatGFF.detect_attr_format`, lines 40-189 of
`Reformat2GFF.py`)

The two methods run the identical per-line candidate-gathering body; they
differ only in how lines are drawn (a random sample of pre-split records vs.
the first `max_lines+1` raw file lines) and in where the resolved values are
stored.  The shared body is embedded once (`attrStep`), the wrappers
separately.
-/

/-- `re.search(r'"[^"]*,[^"]*"', attrs)` as a Boolean: the regex matches iff
some pair of consecutive `"` characters has a `,` strictly between them,
i.e. iff some inner segment of the split on `"` contains a comma. -/
def quotedCommaPat (attrs : Chars) : Bool :=
  ((splitCh '"' attrs).drop 1).dropLast.any (fun seg => charIn ',' seg)

/-- `re.search(r';[^;]*,[^;]*;', attrs)` as a Boolean: some pair of
consecutive `;` characters has a `,` strictly between them. -/
def semiCommaPat (attrs : Chars) : Bool :=
  ((splitCh ';' attrs).drop 1).dropLast.any (fun seg => charIn ',' seg)

/-- `\w` of the Python `re` module, for the ASCII inputs at hand. -/
def isWordC (c : Char) : Bool := c.isAlphanum || decide (c = '_')

/-- After `\w\s`, the rest of `re.search(r'\w+\s+"[^"]+"', ...)`: skip the
remaining whitespace run, then require `"`, at least one non-`"`, and a
closing `"`. -/
def gtfAfterSpaces : Chars → Bool
  | [] => false
  | d :: ds =>
    if pyIsSpace d then gtfAfterSpaces ds
    else decide (d = '"') && (match ds with
      | [] => false
      | e :: es => decide (e ≠ '"') && charIn '"' es)

/-- `re.search(r'\w+\s+"[^"]+"', attrs)` as a Boolean: somewhere in `attrs`
a word character is followed by whitespace and then a non-empty
double-quoted run.  (A single word character before the whitespace decides
the search, since `\w+` can match a length-one run.) -/
def gtfScan : Chars → Bool
  | [] => false
  | c :: cs =>
    (isWordC c && (match cs with
      | [] => false
      | d :: _ => pyIsSpace d && gtfAfterSpaces cs))
    || gtfScan cs

/-- Aggregated candidate state built up by the detection loop.  The Python
sets `sep_candidates ⊆ {";", ",", "\t"}`, `assign_candidates ⊆ {"=", " "}`
and `subformats` (three fixed strings) are encoded as one Boolean per
possible element; the counters and example lines are carried verbatim. -/
structure DState where
  sepSemi : Bool
  sepComma : Bool
  sepTab : Bool
  assignEq : Bool
  assignSpace : Bool
  anyQuotes : Bool
  /-- subformat `"',' inside quoted value"` present -/
  subQuotedComma : Bool
  /-- subformat `"',' inside values with separator';'"` present -/
  subSemiComma : Bool
  /-- subformat `"',' as main separator (PLEASE CONFIRM)"` present -/
  subCommaMain : Bool
  unknownSep : Nat
  unknownAsgn : Nat
  badLines : List Chars
deriving Repr, DecidableEq

/-- The state before any line is inspected: empty sets, zero counters. -/
def initD : DState :=
  ⟨false, false, false, false, false, false, false, false, false, 0, 0, []⟩

/-- The separator-candidate block of the loop body (`# Check separator`). -/
def stepSep (st : DState) (attrs badLine : Chars) : DState :=
  let st1 := if charIn ';' attrs then { st with sepSemi := true } else st
  let st2 :=
    if charIn ',' attrs then
      (if quotedCommaPat attrs then { st1 with subQuotedComma := true }
       else if st1.sepSemi then
         (if semiCommaPat attrs then { st1 with subSemiComma := true } else st1)
       else { st1 with sepComma := true, subCommaMain := true })
    else st1
  let st3 := if charIn '\t' attrs then { st2 with sepTab := true } else st2
  if charIn ';' attrs || charIn ',' attrs || charIn '\t' attrs then st3
  else { st3 with unknownSep := st3.unknownSep + 1,
                  badLines := st3.badLines ++ [badLine] }

/-- The assigner-candidate block of the loop body (`# Check assigner`). -/
def stepAssign (st : DState) (attrs badLine : Chars) : DState :=
  if charIn '=' attrs then { st with assignEq := true }
  else if gtfScan attrs then { st with assignSpace := true, anyQuotes := true }
  else { st with unknownAsgn := st.unknownAsgn + 1,
                 badLines := st.badLines ++ [badLine] }

/-- The quotation-mark block of the loop body (`# Quotation mark`). -/
def stepQuote (st : DState) (attrs : Chars) : DState :=
  if charIn '"' attrs then { st with anyQuotes := true } else st

/-- One iteration of the detection loop on a non-skipped attribute string
`attrs`; `badLine` is the line rendering appended to `bad_lines` on an
unknown separator or assigner. -/
def attrStep (st : DState) (attrs badLine : Chars) : DState :=
  stepQuote (stepAssign (stepSep st attrs badLine) attrs badLine) attrs

/-- The `ParseGFFinfo` loop's skip conditions: a sampled record `f`
participates only when `len(f) >= 9` and `f[8].strip()` is non-empty; the
participating attribute string is `f[8].strip()`. -/
def vAttrs (f : List Chars) : Option Chars :=
  if f.length < 9 then none
  else
    let a := pyStrip (f.getD 8 [])
    if a = [] then none else some a

/-- One iteration of the `ParseGFFinfo.detect_attr_format` loop on a sampled
record `f` (already split on the column delimiter, here the default tab);
the diagnostic rendering is `self.delimiter.join(f).strip()`. -/
def recStep (st : DState) (f : List Chars) : DState :=
  match vAttrs f with
  | none => st
  | some a => attrStep st a (pyStrip (joinWith (str "\t") f))

/-- The `ParseGFFinfo` candidate-gathering loop over the whole sampled
record list, from an arbitrary starting state. -/
def pgffScanFrom (st : DState) (sample : List (List Chars)) : DState :=
  sample.foldl recStep st

/-- The `ParseGFFinfo` candidate-gathering loop over the sampled records. -/
def pgffScan (sample : List (List Chars)) : DState := pgffScanFrom initD sample

/-- Resolution of `separator_likely` from the aggregated candidates
(`ParseGffinfo.py` lines 146-159 and identically `Reformat2GFF.py` lines
140-153).  `any("inside" in sf for sf in subformats)` holds exactly for the
two subformats `"',' inside quoted value"` and
`"',' inside values with separator';'"`.  In the final `else` branch no
separator candidate was ever added, so the sorted diagnostic join of
`sep_candidates` (ASCII order tab < comma < semicolon) degenerates to
`"?"`; the join is kept verbatim. -/
def resolveSep (st : DState) : Chars :=
  if st.sepSemi then str ";"
  else if st.sepComma then
    (if st.subQuotedComma || st.subSemiComma then str ";" else str ",")
  else if st.sepTab then str "\t"
  else
    let cands := (if st.sepTab then [str "\t"] else [])
      ++ (if st.sepComma then [str ","] else [])
      ++ (if st.sepSemi then [str ";"] else [])
    if cands = [] then str "?" else joinWith (str ", and/or ") cands

/-- Resolution of `format_likely`/`assigner_likely` (`ParseGffinfo.py` lines
134-144, `Reformat2GFF.py` lines 128-138), returned as
`some (format, assigner)`.  When `" "` is a candidate but no quoting was
observed, the Python code assigns neither variable (there is no inner
`else`); that outcome is `none`.  In the final `else` branch
`assign_candidates` is necessarily empty (`"="` and `" "` are its only
possible members and both are excluded there), so the sorted diagnostic
join (ASCII order space < `=`) degenerates to `"?"`. -/
def resolveAssignFormat (st : DState) : Option (Chars × Chars) :=
  if st.assignEq && !st.assignSpace then some (str "GFF3-like", str "=")
  else if st.assignSpace then
    (if st.anyQuotes then some (str "GTF-like", str " ") else none)
  else
    let cands := (if st.assignSpace then [str " "] else [])
      ++ (if st.assignEq then [str "="] else [])
    some (str "Unknown",
      if cands = [] then str "?" else joinWith (str ", and/or ") cands)

/-- The mutable dialect fields of a `ParseGFFinfo` object; `__init__` sets
them to `";"`, `"="`, `"Unknown"`. -/
structure PState where
  separator : Chars
  assigner : Chars
  format : Chars
deriving Repr, DecidableEq

/-- `ParseGFFinfo.detect_attr_format(max_lines, apply)` restricted to its
effect on the dialect state.  `random.sample` is external nondeterminism, so
the drawn sample is a parameter.  The candidate loop and resolution always
run; with `apply=True` the resolved values are written to the state, with
`apply=False` the state is left alone.  When resolution leaves
`format_likely`/`assigner_likely` unassigned the method dies with an
`UnboundLocalError` at the summary `print` (which reads `format_likely`
either way), modelled as `none`. -/
def pgffDetect (st : PState) (sample : List (List Chars)) (apply : Bool) :
    Option PState :=
  let ds := pgffScan sample
  match resolveAssignFormat ds with
  | none => none
  | some fa =>
    some (if apply then ⟨resolveSep ds, fa.2, fa.1⟩ else st)

/-- The mutable dialect fields of a `ReformatGFF` object; `__init__` sets
all three to `None` ("placeholder. TBD"). -/
structure RState where
  separator : Option Chars
  assigner : Option Chars
  format : Option Chars
deriving Repr, DecidableEq

/-- One iteration of the `ReformatGFF.detect_attr_format` line loop on the
raw line `l` (comment skip, tab split, column-count and empty-attribute
skips); the diagnostic rendering is `l.strip()`. -/
def rLineStep (st : DState) (l : Chars) : DState :=
  if isCommentL l then st
  else
    let fields := splitCh '\t' (pyRstrip l)
    if fields.length < 9 then st
    else
      let attrs := pyStrip (fields.getD 8 [])
      if attrs = [] then st else attrStep st attrs (pyStrip l)

/-- The `ReformatGFF.detect_attr_format` read loop:
`for i, l in enumerate(gff): if i > max_lines: break; ...` — note the break
fires only once `i` exceeds `max_lines`, so lines `0 .. max_lines`
(i.e. `max_lines + 1` of them) are all processed. -/
def rScan (maxLines : Nat) : Nat → DState → List Chars → DState
  | _, st, [] => st
  | i, st, l :: ls =>
    if maxLines < i then st else rScan maxLines (i + 1) (rLineStep st l) ls

/-- `ReformatGFF.detect_attr_format(max_lines, apply)` restricted to its
effect on the dialect state.  The resolution block writes
`self.format`/`self.assigner`/`self.separator` directly and unconditionally;
in the `" " in assign_candidates and not any_quotes` corner the format and
assigner writes are skipped and the previous values persist.  The
`apply` parameter is consulted only by lines 155-162 of `Reformat2GFF.py`,
whose two branches bind the same local values and write no state, so it has
no effect here and is ignored. -/
def rDetect (st : RState) (lines : List Chars) (maxLines : Nat)
    (apply : Bool) : RState :=
  let ds := rScan maxLines 0 initD lines
  let fa := resolveAssignFormat ds
  { separator := some (resolveSep ds)
    assigner := match fa with | some p => some p.2 | none => st.assigner
    format := match fa with | some p => some p.1 | none => st.format }

/-!
## Attribute key extraction (`ParseGFFinfo.attr`, lines 214-236)

`attr` consumes the dialect stored on the object: it splits each attribute
column on `self.separator` and each token on the first occurrence of
`self.assigner`, with no check of `self.format`.
-/

/-- `ParseGFFinfo.attr(featuretype)`: the set of keys (as an insertion-ordered
duplicate-free list) over the stored record list, for the stored separator
and assigner strings. -/
def pgffAttr (lines : List (List Chars)) (separator assigner : Chars)
    (featuretype : Chars) : List Chars :=
  let ft := toLowerS featuretype
  lines.foldl
    (fun keys f =>
      if f.length < 9 then keys
      else if toLowerS (f.getD 2 []) ≠ ft then keys
      else
        (pySplitS separator (f.getD 8 [])).foldl
          (fun keys tok =>
            let tok := pyStrip tok
            if tok = [] then keys
            else if containsSub assigner tok then
              insertIfAbsent keys (pyStrip (splitAtFirstS assigner tok).1)
            else insertIfAbsent keys (pyStrip tok))
          keys)
    []

/-!
## Hierarchy builder (`biotype_protein_coding`, `parse_protein_coding_bt.py`)

Lines are split with the no-argument `str.split()` — i.e. on arbitrary
whitespace — after `rstrip`.  The attribute dict comprehension splits the
ninth field on `";"` and each `kv` on `"="`.
-/

/-- `l.rstrip().split()` as used by both loops of the class. -/
def lineFields (l : Chars) : List Chars := pySplitWs (pyRstrip l)

/-- The attribute dict comprehension
`{kv.split("=")[0].strip().lower(): kv.split("=",1)[1].strip()
  for kv in fields[8].split(";") if "=" in kv}`,
kept as the ordered assignment list (lookups take the last assignment). -/
def attrsDict (s : Chars) : List (Chars × Chars) :=
  (splitCh ';' s).filterMap
    (fun kv =>
      if charIn '=' kv then
        some (toLowerS (pyStrip (splitAtFirstC '=' kv).1),
              pyStrip (splitAtFirstC '=' kv).2)
      else none)

/-- One line of `parse_proteincoding_genes` (lines 46-67): collect
`attrs["id"]` when the line is a non-comment record with ≥ 9 fields whose
ninth field contains `"protein_coding"` (case-folded) and whose third field
is `gene` (case-folded); genes without an `id` are only warned about. -/
def pcStep (genes : List Chars) (l : Chars) : List Chars :=
  if isCommentL l then genes
  else
    let fields := lineFields l
    if fields.length < 9 then genes
    else if containsSub (str "protein_coding") (toLowerS (fields.getD 8 []))
        && decide (toLowerS (fields.getD 2 []) = str "gene") then
      match lookupLast (attrsDict (fields.getD 8 [])) (str "id") with
      | some g => insertIfAbsent genes g
      | none => genes
    else genes

/-- `parse_proteincoding_genes`: the set of protein-coding gene IDs, as an
insertion-ordered duplicate-free list. -/
def pcGenesL (ls : List Chars) : List Chars := ls.foldl pcStep []

/-- The child-scan state of `gene_to_children`:
`gene_to_transcripts` flattened to (gene, transcript) pairs, and
`transcript_to_cds` as the set of parents marked `True` (a `defaultdict(bool)`
lookup is exactly list membership).  `transcript_to_gene` and the buffered
`gff_lines` feed only the optional `outfile` emission path, which none of
the claims concern, and are not modelled. -/
abbrev HState := List (Chars × Chars) × List Chars

/-- One line of the `gene_to_children` child scan (lines 99-121), with `G`
the previously computed protein-coding gene set. -/
def hierStep (G : List Chars) (st : HState) (l : Chars) : HState :=
  if isCommentL l then st
  else
    let fields := lineFields l
    if fields.length < 9 then st
    else
      let ft := toLowerS (fields.getD 2 [])
      let attrs := attrsDict (fields.getD 8 [])
      if (decide (ft = str "mrna") || decide (ft = str "transcript"))
          && hasKey attrs (str "parent") then
        let parentGene := (lookupLast attrs (str "parent")).getD []
        if memS parentGene G && hasKey attrs (str "id") then
          (insertPairIfAbsent st.1
            (parentGene, (lookupLast attrs (str "id")).getD []), st.2)
        else st
      else if decide (ft = str "cds") && hasKey attrs (str "parent") then
        (st.1, insertIfAbsent st.2 ((lookupLast attrs (str "parent")).getD []))
      else st

/-- The transcripts registered under gene `g`: the value set of
`gene_to_transcripts[g]`. -/
def transcriptsOf (g2t : List (Chars × Chars)) (g : Chars) : List Chars :=
  (g2t.filter (fun pr => decide (pr.1 = g))).map Prod.snd

/-- One gene of the classification loop (lines 129-139): counts
(missing-transcripts, missing-CDS) and the `genes_complete` set. -/
def classifyStep (g2t : List (Chars × Chars)) (t2c : List Chars)
    (acc : Nat × Nat × List Chars) (g : Chars) : Nat × Nat × List Chars :=
  let transcripts := transcriptsOf g2t g
  if transcripts = [] then (acc.1 + 1, acc.2.1, acc.2.2)
  else if !transcripts.any (fun t => memS t t2c) then
    (acc.1, acc.2.1 + 1, acc.2.2)
  else (acc.1, acc.2.1, insertIfAbsent acc.2.2 g)

/-- The summary table of `gene_to_children` (lines 123-146) as the tuple
(total, missing-transcripts, missing-CDS, complete). -/
def gtcSummary (ls : List Chars) : Nat × Nat × Nat × Nat :=
  let G := pcGenesL ls
  let st := ls.foldl (hierStep G) ([], [])
  let cl := G.foldl (classifyStep st.1 st.2) (0, 0, [])
  (G.length, cl.1, cl.2.1, cl.2.2.length)

/-- The transcript IDs registered by the child scan of `ls` (the keys ever
written to `transcript_to_gene`, equivalently the elements added to any
`gene_to_transcripts` value set). -/
def registeredTids (ls : List Chars) : List Chars :=
  ((ls.foldl (hierStep (pcGenesL ls)) ([], [])).1).map Prod.snd

/-!
## Attribute codec

The repository sources contain no serializer and no map-returning parser
(`ParseGFFinfo.attr` extracts keys only, and `Reformat2GFF.py` stops after
dialect detection), so the codec is modelled from the design document's
AttributeCodec section.
-/

/-- Modelled from the spec: the fixed exemption set of AttributeCodec's GFF3
serializer — keys that "may legitimately contain internal commas as list
separators and are never quoted".  Missing from the sources: no `serialize`
is implemented anywhere under the repository. -/
def exemptKeys : List Chars :=
  [str "dbxref", str "ontology_term", str "is_a", str "derives_from",
   str "belongs_to"]

/-- Modelled from the spec: "already quote-wrapped" — first and last
characters are `"` (so at least two characters). -/
def isQuoteWrapped (v : Chars) : Bool :=
  match v with
  | [] => false
  | [_] => false
  | c :: cs => decide (c = '"') && decide (cs.getLast? = some '"')

/-- Modelled from the spec: the GFF3 serializer's quoting condition — "Quote
a value only if it contains space, `;`, `=`, or `,`, is not already
quote-wrapped, and its key is not in the fixed exemption set" (keys compare
case-insensitively). -/
def quoteNeeded (k v : Chars) : Bool :=
  (charIn ' ' v || charIn ';' v || charIn '=' v || charIn ',' v)
    && !isQuoteWrapped v && !memS (toLowerS k) exemptKeys

/-- Modelled from the spec: `AttributeCodec.serialize(map, GFF3)` —
"`key=value` joined by `;`", quoting a value exactly when `quoteNeeded`.
Missing from the sources: no serializer is implemented anywhere under the
repository. -/
def serializeGFF3 (m : List (Chars × Chars)) : Chars :=
  joinWith (str ";")
    (m.map (fun kv =>
      kv.1 ++ '=' :: (if quoteNeeded kv.1 kv.2 then '"' :: kv.2 ++ ['"']
                      else kv.2)))

/-- Modelled from the spec: `AttributeCodec.serialize(map, GTF)` —
"`key "value"; ` for every entry, trailing `;` retained, every value
unconditionally quoted" (Scenario C: `ID "gene1"; Name "foo";`).  Missing
from the sources: no serializer is implemented anywhere under the
repository. -/
def serializeGTF (m : List (Chars × Chars)) : Chars :=
  match m with
  | [] => []
  | _ => joinWith (str "; ")
      (m.map (fun kv => kv.1 ++ ' ' :: '"' :: kv.2 ++ ['"'])) ++ [';']

/-- Modelled from the spec: `AttributeCodec.parse(column, dialect)` — "split
on `dialect.separator`; trim each token; skip empty tokens; if
`dialect.assigner` occurs in the token, split on its first occurrence into
key/value; else treat the whole token as a flag key with empty value" —
for a dialect already resolved to single-character separator/assigner
(GFF3-like: `;`/`=`; GTF-like: `;`/space).  No unquoting step is specified.
Missing from the sources: `ParseGFFinfo.attr` (lines 214-236) performs this
token walk but keeps only the keys; no map-returning parser exists. -/
def parseTok (asgn : Char) (tok : Chars) : Option (Chars × Chars) :=
  let t := pyStrip tok
  if t = [] then none
  else if charIn asgn t then some (splitAtFirstC asgn t)
  else some (t, [])

/-- Modelled from the spec: the token walk of `AttributeCodec.parse` over
the separator-split tokens (see `parseTok` for the per-token step). -/
def parseAttrs (sep asgn : Char) (s : Chars) : List (Chars × Chars) :=
  (splitCh sep s).filterMap (parseTok asgn)

/-!
## Theorems
-/

set_option maxRecDepth 100000

/-- **C3.** For the input consisting of a gene record with `ID=g1` and the
biotype marker present, an mRNA record `ID=t1;Parent=g1`, and a CDS record
`Parent=t1`, `gene_to_children` produces the summary
total = 1, missingTranscripts = 0, missingCDS = 0, complete = 1. -/
theorem hierarchy_scenario_d :
    gtcSummary
      [str "chr1 src gene 1 100 . + . ID=g1;gene_biotype=protein_coding",
       str "chr1 src mRNA 1 100 . + . ID=t1;Parent=g1",
       str "chr1 src CDS 1 50 . + . Parent=t1"] = (1, 0, 0, 1) := by
  decide

/-- **C4** (code bug evaluation).  On a file whose only record carries the
attribute column `foo?bar`, detection resolves the dialect to
`format="Unknown"` with the diagnostic `"?"` stored as both separator and
assigner — and a subsequent `ParseGFFinfo.attr("gene")` call does **not**
fail fast: it splits the attribute column on the diagnostic `"?"` and
returns the keys `foo` and `bar`. -/
theorem unknown_dialect_parses_diagnostic :
    pgffDetect ⟨str ";", str "=", str "Unknown"⟩
        [[str "c1", str "src", str "gene", str "1", str "2", str ".",
          str "+", str ".", str "foo?bar"]] true
      = some ⟨str "?", str "?", str "Unknown"⟩
    ∧ pgffAttr
        [[str "c1", str "src", str "gene", str "1", str "2", str ".",
          str "+", str ".", str "foo?bar"]]
        (str "?") (str "?") (str "gene")
      = [str "foo", str "bar"] := by
  constructor <;> decide

/-- **C7** (code bug evaluation).  `ReformatGFF.detect_attr_format` breaks
only once `i > max_lines`, so with `max_lines = 1` it examines **two**
records: on a file whose first record alone yields separator `"?"` (its
attribute column `ID=x` contains no candidate separator), the second
record's `a=1;b=2` flips the resolved separator to `";"` — a record beyond
the stated sample bound contributes to the result. -/
theorem detect_sample_off_by_one :
    (rDetect ⟨none, none, none⟩
        [str "a\tb\tgene\t1\t2\t.\t+\t.\tID=x"] 1 true).separator
      = some (str "?")
    ∧ (rDetect ⟨none, none, none⟩
        [str "a\tb\tgene\t1\t2\t.\t+\t.\tID=x",
         str "a\tb\tgene\t1\t2\t.\t+\t.\ta=1;b=2"] 1 true).separator
      = some (str ";") := by
  constructor <;> decide

/-- **C1** (code bug evaluation).  `ParseGFFinfo.detect_attr_format` with
`apply=False` leaves the dialect state untouched for every sample — but
`ReformatGFF.detect_attr_format` writes the resolved values to the shared
state *unconditionally*: with `apply=False` on a one-record GFF3-like file
the state moves from the initial `(None, None, None)` to
`(";", "=", "GFF3-like")`, contradicting its own docstring
("apply (bool): if True, update self.separator, self.assigner,
self.format"). -/
theorem detect_apply_frame :
    (∀ (st : PState) (sample : List (List Chars)) (out : PState),
        pgffDetect st sample false = some out → out = st)
    ∧ rDetect ⟨none, none, none⟩
        [str "a\tb\tgene\t1\t2\t.\t+\t.\tID=g1;x=y"] 100 false
      = ⟨some (str ";"), some (str "="), some (str "GFF3-like")⟩ := by
  constructor
  · intro st sample out h
    simp only [pgffDetect] at h
    split at h
    · exact Option.noConfusion h
    · simp only [Bool.false_eq_true, if_false, Option.some.injEq] at h
      exact h.symm
  · decide

/-- Witness for `detect_apply_frame`: its frame part applied at a concrete
state and a concrete one-record sample. -/
theorem detect_apply_frame_witness :
    (⟨str ";", str "=", str "Unknown"⟩ : PState)
      = ⟨str ";", str "=", str "Unknown"⟩ :=
  detect_apply_frame.1 ⟨str ";", str "=", str "Unknown"⟩
    [[str "c", str "s", str "gene", str "1", str "2", str ".", str "+",
      str ".", str "ID=g1"]]
    ⟨str ";", str "=", str "Unknown"⟩ (by decide)

/-- **C8** (counterexample).  The round-trip claim fails for the GTF-like
dialect: for the one-entry map `k ↦ v`, parsing the GTF serialization
returns the value still wrapped in the quotes the serializer added
(`parse` performs no unquoting), so the result is not the original map. -/
theorem codec_gtf_roundtrip_fails :
    parseAttrs ';' ' ' (serializeGTF [(str "k", str "v")])
        = [(str "k", str "\"v\"")]
    ∧ parseAttrs ';' ' ' (serializeGTF [(str "k", str "v")])
        ≠ [(str "k", str "v")] := by
  constructor <;> decide

/-!
### C2: the classification counts partition the root-gene set
-/

/-- `memS` decides list membership. -/
theorem memS_iff {x : Chars} {l : List Chars} : memS x l = true ↔ x ∈ l := by
  simp [memS, List.any_eq_true]

/-- Membership in an `insertIfAbsent` result. -/
theorem mem_insertIfAbsent {y x : Chars} {l : List Chars} :
    y ∈ insertIfAbsent l x ↔ y ∈ l ∨ y = x := by
  unfold insertIfAbsent
  split
  · next h => simp only [memS_iff] at h
              constructor
              · exact Or.inl
              · rintro (hy | rfl) <;> [exact hy; exact h]
  · simp

/-- `insertIfAbsent` preserves duplicate-freeness. -/
theorem nodup_insertIfAbsent {l : List Chars} {x : Chars} (h : l.Nodup) :
    (insertIfAbsent l x).Nodup := by
  unfold insertIfAbsent
  split
  · exact h
  · next hm =>
    simp only [memS_iff] at hm
    simp [List.nodup_append, h, hm]

/-- The `genes` accumulator of `parse_proteincoding_genes` stays
duplicate-free through every line. -/
theorem nodup_pcStep {acc : List Chars} {l : Chars} (h : acc.Nodup) :
    (pcStep acc l).Nodup := by
  unfold pcStep
  dsimp only
  repeat' split
  all_goals first | exact h | exact nodup_insertIfAbsent h

/-- `parse_proteincoding_genes` returns a duplicate-free list. -/
theorem nodup_pcGenesL (ls : List Chars) : (pcGenesL ls).Nodup := by
  suffices h : ∀ (ms : List Chars) (acc : List Chars), acc.Nodup →
      (ms.foldl pcStep acc).Nodup from h ls [] List.nodup_nil
  intro ms
  induction ms with
  | nil => intro acc h; simpa using h
  | cons l ms ih =>
    intro acc h
    rw [List.foldl_cons]
    exact ih _ (nodup_pcStep h)

/-- Each iteration of the classification loop either bumps one of the two
counters or inserts the gene into the complete set. -/
theorem classifyStep_cases (g2t : List (Chars × Chars)) (t2c : List Chars)
    (acc : Nat × Nat × List Chars) (g : Chars) :
    classifyStep g2t t2c acc g = (acc.1 + 1, acc.2.1, acc.2.2)
    ∨ classifyStep g2t t2c acc g = (acc.1, acc.2.1 + 1, acc.2.2)
    ∨ classifyStep g2t t2c acc g
        = (acc.1, acc.2.1, insertIfAbsent acc.2.2 g) := by
  unfold classifyStep
  dsimp only
  split
  · exact Or.inl rfl
  · split
    · exact Or.inr (Or.inl rfl)
    · exact Or.inr (Or.inr rfl)

/-- The classification loop sends each gene of a duplicate-free gene list
(disjoint from the current `genes_complete` set) to exactly one bucket, so
the two counters and the size of the complete set grow together by the
number of genes. -/
theorem classify_partition (g2t : List (Chars × Chars)) (t2c : List Chars) :
    ∀ (genes : List Chars) (mt mc : Nat) (comp : List Chars),
      genes.Nodup → (∀ g ∈ genes, g ∉ comp) →
      (genes.foldl (classifyStep g2t t2c) (mt, mc, comp)).1
        + (genes.foldl (classifyStep g2t t2c) (mt, mc, comp)).2.1
        + (genes.foldl (classifyStep g2t t2c) (mt, mc, comp)).2.2.length
      = mt + mc + comp.length + genes.length := by
  intro genes
  induction genes with
  | nil => intro mt mc comp _ _; simp
  | cons g gs ih =>
    intro mt mc comp hnd hdisj
    have hgs : gs.Nodup := hnd.of_cons
    have hgnot : g ∉ gs := (List.nodup_cons.mp hnd).1
    have hdisj2 : ∀ g' ∈ gs, g' ∉ comp :=
      fun g' hg' => hdisj g' (List.mem_cons_of_mem g hg')
    rw [List.foldl_cons]
    rcases classifyStep_cases g2t t2c (mt, mc, comp) g with hc | hc | hc <;>
      rw [hc]
    · have := ih (mt + 1) mc comp hgs hdisj2
      simp only [List.length_cons]
      omega
    · have := ih mt (mc + 1) comp hgs hdisj2
      simp only [List.length_cons]
      omega
    · have hgc : g ∉ comp := hdisj g (List.mem_cons_self g gs)
      have hlen : (insertIfAbsent comp g).length = comp.length + 1 := by
        unfold insertIfAbsent
        rw [if_neg (by simp [memS_iff, hgc])]
        simp
      have hdisj' : ∀ g' ∈ gs, g' ∉ insertIfAbsent comp g := by
        intro g' hg' hmem
        rcases mem_insertIfAbsent.mp hmem with hc' | rfl
        · exact hdisj2 g' hg' hc'
        · exact hgnot hg'
      have := ih mt mc (insertIfAbsent comp g) hgs hdisj'
      simp only [List.length_cons]
      omega

/-- **C2.** For every input line sequence, the `gene_to_children` summary
satisfies complete + missingTranscripts + missingCDS = total: every
protein-coding root gene lands in exactly one of the three categories. -/
theorem hierarchy_counts_partition (ls : List Chars) :
    (gtcSummary ls).2.2.2 + (gtcSummary ls).2.1 + (gtcSummary ls).2.2.1
      = (gtcSummary ls).1 := by
  unfold gtcSummary
  have h := classify_partition (ls.foldl (hierStep (pcGenesL ls)) ([], [])).1
    (ls.foldl (hierStep (pcGenesL ls)) ([], [])).2
    (pcGenesL ls) 0 0 [] (nodup_pcGenesL ls) (by simp)
  simp only [List.length_nil] at h
  simp only []
  omega

/-!
### Candidate-aggregation structure of the detection loop

Per-line contributions to each candidate flag, used for C5 and C10.
-/

/-- Contribution of record `f` to the `";"` separator candidate. -/
def semiP (f : List Chars) : Bool :=
  match vAttrs f with | none => false | some a => charIn ';' a

/-- Contribution of record `f` to the tab separator candidate. -/
def tabP (f : List Chars) : Bool :=
  match vAttrs f with | none => false | some a => charIn '\t' a

/-- Contribution of record `f` to the `"="` assigner candidate. -/
def eqP (f : List Chars) : Bool :=
  match vAttrs f with | none => false | some a => charIn '=' a

/-- Contribution of record `f` to the `" "` assigner candidate: the GTF
pattern fires only when `"="` is absent (the branch is an `elif`). -/
def spcP (f : List Chars) : Bool :=
  match vAttrs f with
  | none => false
  | some a => !charIn '=' a && gtfScan a

/-- Contribution of record `f` to the `any_quotes` flag (set either with
the `" "` candidate or by a literal `"` in the attribute string). -/
def quoP (f : List Chars) : Bool :=
  match vAttrs f with
  | none => false
  | some a => (!charIn '=' a && gtfScan a) || charIn '"' a

/-- Contribution of record `f` to the `"',' inside quoted value"`
subformat. -/
def qcP (f : List Chars) : Bool :=
  match vAttrs f with
  | none => false
  | some a => charIn ',' a && quotedCommaPat a

/-- Contribution of record `f` to the `","` separator candidate in runs
where no `";"` has been seen (the only runs where it matters). -/
def cmP (f : List Chars) : Bool :=
  match vAttrs f with
  | none => false
  | some a => charIn ',' a && !quotedCommaPat a

/-- `stepQuote` only ORs the quote observation into `anyQuotes`. -/
theorem stepQuote_eq (st : DState) (a : Chars) :
    stepQuote st a = { st with anyQuotes := st.anyQuotes || charIn '"' a } := by
  unfold stepQuote
  cases h : charIn '"' a <;> simp [h]

/-- `stepAssign` ORs the two assigner observations into the candidate set
(and `anyQuotes` together with the space candidate), bumping the
unknown-assigner diagnostics when neither fires. -/
theorem stepAssign_eq (st : DState) (a b : Chars) :
    stepAssign st a b =
      { st with
        assignEq := st.assignEq || charIn '=' a
        assignSpace := st.assignSpace || (!charIn '=' a && gtfScan a)
        anyQuotes := st.anyQuotes || (!charIn '=' a && gtfScan a)
        unknownAsgn :=
          if !charIn '=' a && !gtfScan a then st.unknownAsgn + 1
          else st.unknownAsgn
        badLines :=
          if !charIn '=' a && !gtfScan a then st.badLines ++ [b]
          else st.badLines } := by
  unfold stepAssign
  cases h1 : charIn '=' a <;> cases h2 : gtfScan a <;> simp [h1, h2]

/-- `stepSep` ORs the `";"` observation into `sepSemi`. -/
theorem stepSep_sepSemi (st : DState) (a b : Chars) :
    (stepSep st a b).sepSemi = (st.sepSemi || charIn ';' a) := by
  unfold stepSep
  dsimp only
  cases h1 : charIn ';' a <;> cases h2 : charIn ',' a <;>
    cases h3 : charIn '\t' a <;> cases h4 : quotedCommaPat a <;>
    simp [h1, h2, h3, h4, apply_ite (f := DState.sepSemi)]

/-- `stepSep` ORs the tab observation into `sepTab`. -/
theorem stepSep_sepTab (st : DState) (a b : Chars) :
    (stepSep st a b).sepTab = (st.sepTab || charIn '\t' a) := by
  unfold stepSep
  dsimp only
  cases h1 : charIn ';' a <;> cases h2 : charIn ',' a <;>
    cases h3 : charIn '\t' a <;> cases h4 : quotedCommaPat a <;>
    simp [h1, h2, h3, h4, apply_ite (f := DState.sepTab)]

/-- `stepSep` ORs its per-line test into `subQuotedComma` without
consulting the aggregated state. -/
theorem stepSep_subQuotedComma (st : DState) (a b : Chars) :
    (stepSep st a b).subQuotedComma
      = (st.subQuotedComma || (charIn ',' a && quotedCommaPat a)) := by
  unfold stepSep
  dsimp only
  cases h1 : charIn ';' a <;> cases h2 : charIn ',' a <;>
    cases h3 : charIn '\t' a <;> cases h4 : quotedCommaPat a <;>
    simp [h1, h2, h3, h4, apply_ite (f := DState.subQuotedComma)]

/-- `stepSep` leaves the assigner candidates and the quoting flag alone. -/
theorem stepSep_assign_frame (st : DState) (a b : Chars) :
    (stepSep st a b).assignEq = st.assignEq
    ∧ (stepSep st a b).assignSpace = st.assignSpace
    ∧ (stepSep st a b).anyQuotes = st.anyQuotes := by
  unfold stepSep
  dsimp only
  cases h1 : charIn ';' a <;> cases h2 : charIn ',' a <;>
    cases h3 : charIn '\t' a <;> cases h4 : quotedCommaPat a <;>
    constructor <;>
    simp [h1, h2, h3, h4, apply_ite (f := DState.assignEq),
      apply_ite (f := DState.assignSpace), apply_ite (f := DState.anyQuotes)]

/-- In runs where `";"` never occurs, the comma handling of `stepSep`
degenerates to a per-line update of `sepComma`/`subCommaMain`, and
`subSemiComma` can never be set. -/
theorem stepSep_comma_noSemi (st : DState) (a b : Chars)
    (h1 : st.sepSemi = false) (h2 : charIn ';' a = false) :
    (stepSep st a b).sepComma
        = (st.sepComma || (charIn ',' a && !quotedCommaPat a))
    ∧ (stepSep st a b).subCommaMain
        = (st.subCommaMain || (charIn ',' a && !quotedCommaPat a))
    ∧ (stepSep st a b).subSemiComma = st.subSemiComma := by
  unfold stepSep
  dsimp only
  cases h2' : charIn ',' a <;> cases h3 : charIn '\t' a <;>
    cases h4 : quotedCommaPat a <;>
    refine ⟨?_, ?_, ?_⟩ <;>
    simp [h1, h2, h2', h3, h4, apply_ite (f := DState.sepComma),
      apply_ite (f := DState.subCommaMain),
      apply_ite (f := DState.subSemiComma)]

/-- `attrStep` updates `sepSemi` by OR-ing in the presence of `";"`. -/
theorem attrStep_sepSemi (st : DState) (a b : Chars) :
    (attrStep st a b).sepSemi = (st.sepSemi || charIn ';' a) := by
  unfold attrStep
  rw [stepQuote_eq, stepAssign_eq]
  dsimp only
  exact stepSep_sepSemi st a b

/-- `attrStep` updates `sepTab` by OR-ing in the presence of a tab. -/
theorem attrStep_sepTab (st : DState) (a b : Chars) :
    (attrStep st a b).sepTab = (st.sepTab || charIn '\t' a) := by
  unfold attrStep
  rw [stepQuote_eq, stepAssign_eq]
  dsimp only
  exact stepSep_sepTab st a b

/-- `attrStep` updates `assignEq` by OR-ing in the presence of `"="`. -/
theorem attrStep_assignEq (st : DState) (a b : Chars) :
    (attrStep st a b).assignEq = (st.assignEq || charIn '=' a) := by
  unfold attrStep
  rw [stepQuote_eq, stepAssign_eq]
  dsimp only
  rw [(stepSep_assign_frame st a b).1]

/-- `attrStep` updates `assignSpace` by OR-ing in the GTF-pattern test. -/
theorem attrStep_assignSpace (st : DState) (a b : Chars) :
    (attrStep st a b).assignSpace
      = (st.assignSpace || (!charIn '=' a && gtfScan a)) := by
  unfold attrStep
  rw [stepQuote_eq, stepAssign_eq]
  dsimp only
  rw [(stepSep_assign_frame st a b).2.1]

/-- `attrStep` updates `anyQuotes` by OR-ing in the two per-line quote
observations; in particular `anyQuotes` is never cleared, and it is set
whenever `assignSpace` is. -/
theorem attrStep_anyQuotes (st : DState) (a b : Chars) :
    (attrStep st a b).anyQuotes
      = (st.anyQuotes || (!charIn '=' a && gtfScan a) || charIn '"' a) := by
  unfold attrStep
  rw [stepQuote_eq, stepAssign_eq]
  dsimp only
  rw [(stepSep_assign_frame st a b).2.2]

/-- `attrStep` updates `subQuotedComma` by OR-ing in its per-line test. -/
theorem attrStep_subQuotedComma (st : DState) (a b : Chars) :
    (attrStep st a b).subQuotedComma
      = (st.subQuotedComma || (charIn ',' a && quotedCommaPat a)) := by
  unfold attrStep
  rw [stepQuote_eq, stepAssign_eq]
  dsimp only
  exact stepSep_subQuotedComma st a b

/-- In runs where `";"` never occurs, the comma handling of the whole loop
body degenerates to a per-line update. -/
theorem attrStep_comma_noSemi (st : DState) (a b : Chars)
    (h1 : st.sepSemi = false) (h2 : charIn ';' a = false) :
    (attrStep st a b).sepComma
        = (st.sepComma || (charIn ',' a && !quotedCommaPat a))
    ∧ (attrStep st a b).subCommaMain
        = (st.subCommaMain || (charIn ',' a && !quotedCommaPat a))
    ∧ (attrStep st a b).subSemiComma = st.subSemiComma := by
  unfold attrStep
  rw [stepQuote_eq, stepAssign_eq]
  dsimp only
  exact stepSep_comma_noSemi st a b h1 h2

/-- Lifting a per-record OR-shaped update law through the whole sampled
fold. -/
theorem scan_or_closed (field : DState → Bool) (P : List Chars → Bool)
    (hstep : ∀ st f, field (recStep st f) = (field st || P f)) :
    ∀ (l : List (List Chars)) (st : DState),
      field (pgffScanFrom st l) = (field st || l.any P) := by
  intro l
  induction l with
  | nil => intro st; simp [pgffScanFrom]
  | cons f fs ih =>
    intro st
    show field (pgffScanFrom (recStep st f) fs) = _
    rw [ih, hstep, List.any_cons, Bool.or_assoc]

/-- Per-record version of `attrStep_sepSemi`. -/
theorem recStep_sepSemi (st : DState) (f : List Chars) :
    (recStep st f).sepSemi = (st.sepSemi || semiP f) := by
  unfold recStep semiP
  cases h : vAttrs f <;> simp [attrStep_sepSemi]

/-- Per-record version of `attrStep_sepTab`. -/
theorem recStep_sepTab (st : DState) (f : List Chars) :
    (recStep st f).sepTab = (st.sepTab || tabP f) := by
  unfold recStep tabP
  cases h : vAttrs f <;> simp [attrStep_sepTab]

/-- Per-record version of `attrStep_assignEq`. -/
theorem recStep_assignEq (st : DState) (f : List Chars) :
    (recStep st f).assignEq = (st.assignEq || eqP f) := by
  unfold recStep eqP
  cases h : vAttrs f <;> simp [attrStep_assignEq]

/-- Per-record version of `attrStep_assignSpace`. -/
theorem recStep_assignSpace (st : DState) (f : List Chars) :
    (recStep st f).assignSpace = (st.assignSpace || spcP f) := by
  unfold recStep spcP
  cases h : vAttrs f <;> simp [attrStep_assignSpace]

/-- Per-record version of `attrStep_anyQuotes`. -/
theorem recStep_anyQuotes (st : DState) (f : List Chars) :
    (recStep st f).anyQuotes = (st.anyQuotes || quoP f) := by
  unfold recStep quoP
  cases h : vAttrs f <;> simp [attrStep_anyQuotes, Bool.or_assoc]

/-- Per-record version of `attrStep_subQuotedComma`. -/
theorem recStep_subQuotedComma (st : DState) (f : List Chars) :
    (recStep st f).subQuotedComma = (st.subQuotedComma || qcP f) := by
  unfold recStep qcP
  cases h : vAttrs f <;> simp [attrStep_subQuotedComma]

/-- `pgffScan` closed form for `sepSemi`. -/
theorem pgffScan_sepSemi (l : List (List Chars)) :
    (pgffScan l).sepSemi = l.any semiP := by
  simpa [pgffScan, initD] using
    scan_or_closed (fun st => st.sepSemi) semiP recStep_sepSemi l initD

/-- `pgffScan` closed form for `sepTab`. -/
theorem pgffScan_sepTab (l : List (List Chars)) :
    (pgffScan l).sepTab = l.any tabP := by
  simpa [pgffScan, initD] using
    scan_or_closed (fun st => st.sepTab) tabP recStep_sepTab l initD

/-- `pgffScan` closed form for `assignEq`. -/
theorem pgffScan_assignEq (l : List (List Chars)) :
    (pgffScan l).assignEq = l.any eqP := by
  simpa [pgffScan, initD] using
    scan_or_closed (fun st => st.assignEq) eqP recStep_assignEq l initD

/-- `pgffScan` closed form for `assignSpace`. -/
theorem pgffScan_assignSpace (l : List (List Chars)) :
    (pgffScan l).assignSpace = l.any spcP := by
  simpa [pgffScan, initD] using
    scan_or_closed (fun st => st.assignSpace) spcP recStep_assignSpace l initD

/-- `pgffScan` closed form for `anyQuotes`. -/
theorem pgffScan_anyQuotes (l : List (List Chars)) :
    (pgffScan l).anyQuotes = l.any quoP := by
  simpa [pgffScan, initD] using
    scan_or_closed (fun st => st.anyQuotes) quoP recStep_anyQuotes l initD

/-- `pgffScan` closed form for `subQuotedComma`. -/
theorem pgffScan_subQuotedComma (l : List (List Chars)) :
    (pgffScan l).subQuotedComma = l.any qcP := by
  simpa [pgffScan, initD] using
    scan_or_closed (fun st => st.subQuotedComma) qcP
      recStep_subQuotedComma l initD

/-- Per-record version of `attrStep_comma_noSemi`. -/
theorem recStep_comma_noSemi (st : DState) (f : List Chars)
    (h1 : st.sepSemi = false) (h2 : semiP f = false) :
    (recStep st f).sepComma = (st.sepComma || cmP f)
    ∧ (recStep st f).subCommaMain = (st.subCommaMain || cmP f)
    ∧ (recStep st f).subSemiComma = st.subSemiComma := by
  unfold recStep cmP
  unfold semiP at h2
  cases h : vAttrs f
  · simp
  · rw [h] at h2
    exact attrStep_comma_noSemi st _ _ h1 h2

/-- `pgffScanFrom` closed form for the comma fields in runs without any
`";"` observation. -/
theorem scan_comma_noSemi :
    ∀ (l : List (List Chars)) (st : DState), l.any semiP = false →
      st.sepSemi = false →
      (pgffScanFrom st l).sepComma = (st.sepComma || l.any cmP)
      ∧ (pgffScanFrom st l).subCommaMain = (st.subCommaMain || l.any cmP)
      ∧ (pgffScanFrom st l).subSemiComma = st.subSemiComma := by
  intro l
  induction l with
  | nil => intro st _ _; simp [pgffScanFrom]
  | cons f fs ih =>
    intro st hany hsemi
    rw [List.any_cons, Bool.or_eq_false_iff] at hany
    have hsemi' : (recStep st f).sepSemi = false := by
      rw [recStep_sepSemi, hsemi, hany.1]
      rfl
    obtain ⟨e1, e2, e3⟩ := ih (recStep st f) hany.2 hsemi'
    obtain ⟨d1, d2, d3⟩ := recStep_comma_noSemi st f hsemi hany.1
    have key : pgffScanFrom st (f :: fs) = pgffScanFrom (recStep st f) fs :=
      rfl
    refine ⟨?_, ?_, ?_⟩
    · rw [key, e1, d1, List.any_cons, Bool.or_assoc]
    · rw [key, e2, d2, List.any_cons, Bool.or_assoc]
    · rw [key, e3, d3]

/-- `List.any` is invariant under permutation of the list. -/
theorem perm_any {α : Type} (p : α → Bool) {l₁ l₂ : List α}
    (h : l₁.Perm l₂) : l₁.any p = l₂.any p := by
  induction h with
  | nil => rfl
  | cons x _ ih => simp [List.any_cons, ih]
  | swap x y l =>
    simp only [List.any_cons]
    rw [← Bool.or_assoc, Bool.or_comm (p y) (p x), Bool.or_assoc]
  | trans _ _ ih₁ ih₂ => exact ih₁.trans ih₂

/-- `resolveSep` reads only the three separator candidates and the two
"inside" subformat flags. -/
theorem resolveSep_congr (s t : DState) (h1 : s.sepSemi = t.sepSemi)
    (h2 : s.sepComma = t.sepComma) (h3 : s.sepTab = t.sepTab)
    (h4 : s.subQuotedComma = t.subQuotedComma)
    (h5 : s.subSemiComma = t.subSemiComma) :
    resolveSep s = resolveSep t := by
  unfold resolveSep
  rw [h1, h2, h3, h4, h5]

/-- When `";"` is a candidate, the separator resolves to `";"` no matter
what else was observed. -/
theorem resolveSep_of_semi {s : DState} (h : s.sepSemi = true) :
    resolveSep s = str ";" := by
  unfold resolveSep
  rw [h]
  rfl

/-- `resolveAssignFormat` reads only the two assigner candidates and the
quoting flag. -/
theorem resolveAssignFormat_congr (s t : DState)
    (h1 : s.assignEq = t.assignEq) (h2 : s.assignSpace = t.assignSpace)
    (h3 : s.anyQuotes = t.anyQuotes) :
    resolveAssignFormat s = resolveAssignFormat t := by
  unfold resolveAssignFormat
  rw [h1, h2, h3]

/-- **C5.** The resolved `(separator, (format, assigner))` triple of dialect
detection is invariant under any permutation of the sampled record order,
even though the intermediate candidate sets and subformat annotations may
differ with order. -/
theorem detect_resolution_perm_invariant
    {l₁ l₂ : List (List Chars)} (h : l₁.Perm l₂) :
    resolveSep (pgffScan l₁) = resolveSep (pgffScan l₂)
    ∧ resolveAssignFormat (pgffScan l₁)
        = resolveAssignFormat (pgffScan l₂) := by
  constructor
  · by_cases hs : l₁.any semiP = true
    · have hs₂ : l₂.any semiP = true := by rw [← perm_any semiP h]; exact hs
      rw [resolveSep_of_semi (by rw [pgffScan_sepSemi]; exact hs),
        resolveSep_of_semi (by rw [pgffScan_sepSemi]; exact hs₂)]
    · have h1 : l₁.any semiP = false := Bool.eq_false_iff.mpr hs
      have h2 : l₂.any semiP = false := by rw [← perm_any semiP h]; exact h1
      have c1 := scan_comma_noSemi l₁ initD h1 rfl
      have c2 := scan_comma_noSemi l₂ initD h2 rfl
      refine resolveSep_congr _ _ ?_ ?_ ?_ ?_ ?_
      · rw [pgffScan_sepSemi, pgffScan_sepSemi, h1, h2]
      · show (pgffScanFrom initD l₁).sepComma = (pgffScanFrom initD l₂).sepComma
        rw [c1.1, c2.1, perm_any cmP h]
      · rw [pgffScan_sepTab, pgffScan_sepTab, perm_any tabP h]
      · rw [pgffScan_subQuotedComma, pgffScan_subQuotedComma,
          perm_any qcP h]
      · show (pgffScanFrom initD l₁).subSemiComma
            = (pgffScanFrom initD l₂).subSemiComma
        rw [c1.2.2, c2.2.2]
  · refine resolveAssignFormat_congr _ _ ?_ ?_ ?_
    · rw [pgffScan_assignEq, pgffScan_assignEq, perm_any eqP h]
    · rw [pgffScan_assignSpace, pgffScan_assignSpace, perm_any spcP h]
    · rw [pgffScan_anyQuotes, pgffScan_anyQuotes, perm_any quoP h]

/-- Witness for `detect_resolution_perm_invariant`: a concrete two-record
sample (one GFF3-like record, one record with a bare comma in its
attributes) and its transposition resolve identically. -/
theorem detect_resolution_perm_invariant_witness :
    resolveSep (pgffScan
        [[str "c", str "s", str "gene", str "1", str "2", str ".", str "+",
          str ".", str "a=1;b=2"],
         [str "c", str "s", str "gene", str "1", str "2", str ".", str "+",
          str ".", str "x=1,2"]])
      = resolveSep (pgffScan
        [[str "c", str "s", str "gene", str "1", str "2", str ".", str "+",
          str ".", str "x=1,2"],
         [str "c", str "s", str "gene", str "1", str "2", str ".", str "+",
          str ".", str "a=1;b=2"]]) :=
  (detect_resolution_perm_invariant (List.Perm.swap _ _ [])).1

/-!
### C10: the space-candidate-without-quoting branch is unreachable
-/

/-- If an `any`-test succeeds and the predicate implies another, the other
`any`-test succeeds. -/
theorem any_mono {α : Type} {p q : α → Bool} (l : List α)
    (himp : ∀ x, p x = true → q x = true) (h : l.any p = true) :
    l.any q = true := by
  rw [List.any_eq_true] at h ⊢
  obtain ⟨x, hx, hpx⟩ := h
  exact ⟨x, hx, himp x hpx⟩

/-- Each record's space-candidate contribution also contributes to the
quoting flag. -/
theorem spcP_le_quoP (f : List Chars) : spcP f = true → quoP f = true := by
  unfold spcP quoP
  cases h : vAttrs f <;> dsimp only
  · exact id
  · intro hs
    rw [hs]
    rfl

/-- Whenever `assignSpace` holds and `anyQuotes` follows from it, the
format/assigner resolution produces a value (the branch with `" "` as a
candidate but no quoting — the one that would leave the Python locals
unbound — is not taken). -/
theorem resolveAssignFormat_isSome {s : DState}
    (h : s.assignSpace = true → s.anyQuotes = true) :
    (resolveAssignFormat s).isSome = true := by
  unfold resolveAssignFormat
  split_ifs with h1 h2 h3 <;> first | rfl | exact absurd (h h2) h3

/-- The quoting invariant holds after any single loop-body step. -/
theorem attrStep_quoting_inv (st : DState) (a b : Chars)
    (h : st.assignSpace = true → st.anyQuotes = true) :
    (attrStep st a b).assignSpace = true
      → (attrStep st a b).anyQuotes = true := by
  rw [attrStep_assignSpace, attrStep_anyQuotes]
  cases hx : st.assignSpace <;> cases hg : (!charIn '=' a && gtfScan a) <;>
    simp_all

/-- The quoting invariant holds after any `ReformatGFF` line step. -/
theorem rLineStep_quoting_inv (st : DState) (l : Chars)
    (h : st.assignSpace = true → st.anyQuotes = true) :
    (rLineStep st l).assignSpace = true
      → (rLineStep st l).anyQuotes = true := by
  unfold rLineStep
  dsimp only
  split_ifs <;> first | exact h | exact attrStep_quoting_inv _ _ _ h

/-- The quoting invariant is preserved by the whole `ReformatGFF` read
loop, whatever the line index and bound. -/
theorem rScan_quoting_inv (maxLines : Nat) :
    ∀ (lines : List Chars) (i : Nat) (st : DState),
      (st.assignSpace = true → st.anyQuotes = true) →
      ((rScan maxLines i st lines).assignSpace = true
        → (rScan maxLines i st lines).anyQuotes = true) := by
  intro lines
  induction lines with
  | nil => intro i st h; exact h
  | cons l ls ih =>
    intro i st h
    unfold rScan
    split
    · exact h
    · exact ih (i + 1) (rLineStep st l) (rLineStep_quoting_inv st l h)

/-- **C10.** In both detectors, `" "` joins the assigner candidates only
together with the quoting flag, and the flag is never cleared; hence at
resolution time a space candidate guarantees quoting was observed, and the
resolution always assigns a format and assigner — the branch that would
leave the result unset (`ParseGFFinfo`'s unbound locals, `ReformatGFF`'s
unwritten fields) is unreachable for every input. -/
theorem space_candidate_implies_quoting :
    (∀ sample : List (List Chars),
      (!(pgffScan sample).assignSpace || (pgffScan sample).anyQuotes) = true
      ∧ (resolveAssignFormat (pgffScan sample)).isSome = true)
    ∧ (∀ (lines : List Chars) (maxLines : Nat),
      (!(rScan maxLines 0 initD lines).assignSpace
          || (rScan maxLines 0 initD lines).anyQuotes) = true
      ∧ (resolveAssignFormat (rScan maxLines 0 initD lines)).isSome
          = true) := by
  constructor
  · intro sample
    have hinv : (pgffScan sample).assignSpace = true
        → (pgffScan sample).anyQuotes = true := by
      rw [pgffScan_assignSpace, pgffScan_anyQuotes]
      exact any_mono sample spcP_le_quoP
    refine ⟨?_, resolveAssignFormat_isSome hinv⟩
    cases hx : (pgffScan sample).assignSpace
    · rfl
    · rw [hinv hx]
      rfl
  · intro lines maxLines
    have hinv := rScan_quoting_inv maxLines lines 0 initD (by intro h; cases h)
    refine ⟨?_, resolveAssignFormat_isSome hinv⟩
    cases hx : (rScan maxLines 0 initD lines).assignSpace
    · rfl
    · rw [hinv hx]
      rfl

/-!
### C9: whitespace splitting versus tab splitting
-/

/-- `dropWhile` is the identity when the head (if any) fails the test. -/
theorem dropWhile_id_of_head {p : Char → Bool} :
    ∀ {s : Chars}, (∀ ch ∈ s, p ch = false) → s.dropWhile p = s := by
  intro s h
  cases s with
  | nil => rfl
  | cons c cs => simp [List.dropWhile, h c (List.mem_cons_self c cs)]

/-- `rstrip` is the identity on strings without whitespace. -/
theorem pyRstrip_id_of_noWs {s : Chars}
    (h : ∀ ch ∈ s, pyIsSpace ch = false) : pyRstrip s = s := by
  unfold pyRstrip
  rw [dropWhile_id_of_head (fun ch hch => h ch (List.mem_reverse.mp hch))]
  exact s.reverse_reverse

/-- Equation: `dropWhile` on a cons cell. -/
theorem dropWhile_cons_eq (p : Char → Bool) (c : Char) (cs : Chars) :
    (c :: cs).dropWhile p = if p c then cs.dropWhile p else c :: cs := by
  cases h : p c <;> simp [List.dropWhile, h]

/-- `dropWhile` passes over a left factor it cannot exhaust. -/
theorem dropWhile_append_of_ne {p : Char → Bool} :
    ∀ (xs ys : Chars), xs.dropWhile p ≠ [] →
      (xs ++ ys).dropWhile p = xs.dropWhile p ++ ys := by
  intro xs
  induction xs with
  | nil => intro ys h; exact absurd rfl h
  | cons c cs ih =>
    intro ys h
    rw [dropWhile_cons_eq] at h
    rw [List.cons_append, dropWhile_cons_eq, dropWhile_cons_eq]
    cases hc : p c
    · rw [hc] at h
      simp only [Bool.false_eq_true, if_false] at h ⊢
      exact (List.cons_append c cs ys).symm
    · rw [hc] at h
      simp only [if_true] at h ⊢
      exact ih ys h

/-- `rstrip` ignores any prefix when the remainder keeps a non-space
tail. -/
theorem pyRstrip_append {a b : Chars} (h : pyRstrip b ≠ []) :
    pyRstrip (a ++ b) = a ++ pyRstrip b := by
  unfold pyRstrip at h ⊢
  have hb : b.reverse.dropWhile pyIsSpace ≠ [] := by
    intro he
    rw [he] at h
    exact h rfl
  rw [List.reverse_append, dropWhile_append_of_ne _ _ hb,
    List.reverse_append, List.reverse_reverse]

/-- Equation: one step of `splitChAux`. -/
theorem splitChAux_cons (d c : Char) (cs acc : Chars) :
    splitChAux d (c :: cs) acc
      = if c = d then acc.reverse :: splitChAux d cs []
        else splitChAux d cs (c :: acc) := rfl

/-- Splitting on a character walks over a factor not containing it. -/
theorem splitChAux_no_hit {d : Char} :
    ∀ (p : Chars), (∀ ch ∈ p, ch ≠ d) → ∀ (rest acc : Chars),
      splitChAux d (p ++ rest) acc = splitChAux d rest (p.reverse ++ acc) := by
  intro p
  induction p with
  | nil => intro _ rest acc; simp
  | cons c cs ih =>
    intro h rest acc
    rw [List.cons_append, splitChAux_cons,
      if_neg (h c (List.mem_cons_self c cs)),
      ih (fun ch hch => h ch (List.mem_cons_of_mem c hch)) rest (c :: acc)]
    congr 1
    simp

/-- Equation: one step of `splitWsAux`. -/
theorem splitWsAux_cons (c : Char) (cs acc : Chars) :
    splitWsAux (c :: cs) acc
      = if pyIsSpace c then
          (if acc.isEmpty then splitWsAux cs []
           else acc.reverse :: splitWsAux cs [])
        else splitWsAux cs (c :: acc) := rfl

/-- Whitespace splitting walks over a factor of non-space characters. -/
theorem splitWsAux_no_ws :
    ∀ (p : Chars), (∀ ch ∈ p, pyIsSpace ch = false) → ∀ (rest acc : Chars),
      splitWsAux (p ++ rest) acc = splitWsAux rest (p.reverse ++ acc) := by
  intro p
  induction p with
  | nil => intro _ rest acc; simp
  | cons c cs ih =>
    intro h rest acc
    rw [List.cons_append, splitWsAux_cons, h c (List.mem_cons_self c cs)]
    simp only [Bool.false_eq_true, if_false]
    rw [ih (fun ch hch => h ch (List.mem_cons_of_mem c hch)) rest (c :: acc)]
    congr 1
    simp

/-- Whitespace splitting at a tab with a non-empty accumulator emits the
accumulated token. -/
theorem splitWsAux_tab (rest : Chars) {acc : Chars} (h : acc ≠ []) :
    splitWsAux ('\t' :: rest) acc = acc.reverse :: splitWsAux rest [] := by
  rw [splitWsAux_cons, show pyIsSpace '\t' = true from rfl]
  simp [List.isEmpty_iff, h]

/-- Equation: a two-or-more-element join. -/
theorem joinWith_cons₂ (sep p q : Chars) (ps : List Chars) :
    joinWith sep (p :: q :: ps) = p ++ (sep ++ joinWith sep (q :: ps)) := by
  simp only [joinWith]
  simp [List.append_assoc]

/-- Equation: a singleton join. -/
theorem joinWith_single (sep p : Chars) : joinWith sep [p] = p := by
  simp only [joinWith]

/-- A tab-join of non-empty columns is non-empty. -/
theorem joinTab_ne_nil :
    ∀ (cols : List Chars), cols ≠ [] → (∀ c ∈ cols, c ≠ []) →
      joinWith (str "\t") cols ≠ [] := by
  intro cols hne h
  cases cols with
  | nil => exact absurd rfl hne
  | cons c cs =>
    cases cs with
    | nil => rw [joinWith_single]; exact h c (by simp)
    | cons c2 cs2 =>
      rw [joinWith_cons₂]
      intro he
      exact h c (by simp) (List.append_eq_nil.mp he).1

/-- Terminal tokens of the two splitters. -/
theorem splitWsAux_nil (acc : Chars) :
    splitWsAux [] acc = if acc.isEmpty then [] else [acc.reverse] := rfl

/-- Terminal token of `splitChAux`. -/
theorem splitChAux_nil (d : Char) (acc : Chars) :
    splitChAux d [] acc = [acc.reverse] := rfl

/-- A tab-joined list of non-empty all-non-space columns whitespace-splits
back to exactly those columns. -/
theorem pySplitWs_joinTab :
    ∀ (cols : List Chars), cols ≠ [] →
      (∀ c ∈ cols, c ≠ [] ∧ ∀ ch ∈ c, pyIsSpace ch = false) →
      pySplitWs (joinWith (str "\t") cols) = cols := by
  intro cols
  induction cols with
  | nil => intro h _; exact absurd rfl h
  | cons c cs ih =>
    intro _ h
    obtain ⟨hcne, hcws⟩ := h c (List.mem_cons_self c cs)
    cases cs with
    | nil =>
      have h0 : pySplitWs (joinWith (str "\t") [c]) = splitWsAux (c ++ []) [] := by
        rw [List.append_nil]
        rfl
      rw [h0, splitWsAux_no_ws c hcws [] [], splitWsAux_nil]
      simp [List.isEmpty_iff, hcne]
    | cons c2 cs2 =>
      have h0 : pySplitWs (joinWith (str "\t") (c :: c2 :: cs2))
          = splitWsAux (c ++ ('\t' :: joinWith (str "\t") (c2 :: cs2))) [] := by
        rw [joinWith_cons₂]
        rfl
      rw [h0, splitWsAux_no_ws c hcws _ [], List.append_nil,
        splitWsAux_tab _ (by simpa using hcne), List.reverse_reverse]
      have hrec := ih (by simp) (fun x hx => h x (List.mem_cons_of_mem c hx))
      rw [show splitWsAux (joinWith (str "\t") (c2 :: cs2)) []
          = pySplitWs (joinWith (str "\t") (c2 :: cs2)) from rfl, hrec]

/-- A tab-joined list of tab-free columns tab-splits back to exactly those
columns. -/
theorem splitCh_joinTab :
    ∀ (cols : List Chars), cols ≠ [] →
      (∀ c ∈ cols, ∀ ch ∈ c, ch ≠ '\t') →
      splitCh '\t' (joinWith (str "\t") cols) = cols := by
  intro cols
  induction cols with
  | nil => intro h _; exact absurd rfl h
  | cons c cs ih =>
    intro _ h
    have hcws := h c (List.mem_cons_self c cs)
    cases cs with
    | nil =>
      have h0 : splitCh '\t' (joinWith (str "\t") [c])
          = splitChAux '\t' (c ++ []) [] := by
        rw [List.append_nil]
        rfl
      rw [h0, splitChAux_no_hit c hcws [] [], splitChAux_nil]
      simp
    | cons c2 cs2 =>
      have h0 : splitCh '\t' (joinWith (str "\t") (c :: c2 :: cs2))
          = splitChAux '\t' (c ++ ('\t' :: joinWith (str "\t") (c2 :: cs2))) [] := by
        rw [joinWith_cons₂]
        rfl
      rw [h0, splitChAux_no_hit c hcws _ [], List.append_nil,
        splitChAux_cons, if_pos rfl, List.reverse_reverse]
      have hrec := ih (by simp) (fun x hx => h x (List.mem_cons_of_mem c hx))
      rw [show splitChAux '\t' (joinWith (str "\t") (c2 :: cs2)) []
          = splitCh '\t' (joinWith (str "\t") (c2 :: cs2)) from rfl, hrec]

/-- `rstrip` leaves a tab-join of non-empty all-non-space columns alone
(its last character is not whitespace). -/
theorem pyRstrip_joinTab :
    ∀ (cols : List Chars), cols ≠ [] →
      (∀ c ∈ cols, c ≠ [] ∧ ∀ ch ∈ c, pyIsSpace ch = false) →
      pyRstrip (joinWith (str "\t") cols) = joinWith (str "\t") cols := by
  intro cols
  induction cols with
  | nil => intro h _; exact absurd rfl h
  | cons c cs ih =>
    intro _ h
    obtain ⟨hcne, hcws⟩ := h c (List.mem_cons_self c cs)
    cases cs with
    | nil =>
      rw [joinWith_single]
      exact pyRstrip_id_of_noWs hcws
    | cons c2 cs2 =>
      have hJ := ih (by simp) (fun x hx => h x (List.mem_cons_of_mem c hx))
      have hJne : joinWith (str "\t") (c2 :: cs2) ≠ [] :=
        joinTab_ne_nil (c2 :: cs2) (by simp)
          (fun x hx => (h x (List.mem_cons_of_mem c hx)).1)
      have hTJ : pyRstrip (str "\t" ++ joinWith (str "\t") (c2 :: cs2))
          = str "\t" ++ joinWith (str "\t") (c2 :: cs2) := by
        rw [pyRstrip_append (by rw [hJ]; exact hJne), hJ]
      rw [joinWith_cons₂, pyRstrip_append (by rw [hTJ]; simp [str]), hTJ]

/-- **C9** (counterexample).  The claim "for every tab-delimited record in
which no column contains a space character, the obtained columns equal the
tab-split columns" is false: whitespace splitting also breaks on an empty
column (the adjacent tabs collapse, here yielding 8 fields against the 9
tab-split columns of a record with an empty score column and no space
anywhere) and on any other whitespace character (a carriage return inside
the attribute column yields 10 fields, again with no space anywhere). -/
theorem whitespace_split_vs_tab_counterexample :
    ((∀ c ∈ [str "c1", str "src", str "gene", str "1", str "100", str "",
        str "+", str ".", str "ID=g1"], charIn ' ' c = false)
      ∧ lineFields (joinWith (str "\t")
            [str "c1", str "src", str "gene", str "1", str "100", str "",
             str "+", str ".", str "ID=g1"])
          ≠ [str "c1", str "src", str "gene", str "1", str "100", str "",
             str "+", str ".", str "ID=g1"]
      ∧ lineFields (joinWith (str "\t")
            [str "c1", str "src", str "gene", str "1", str "100", str "",
             str "+", str ".", str "ID=g1"])
          ≠ splitCh '\t' (pyRstrip (joinWith (str "\t")
            [str "c1", str "src", str "gene", str "1", str "100", str "",
             str "+", str ".", str "ID=g1"])))
    ∧ ((∀ c ∈ [str "c1", str "src", str "gene", str "1", str "100", str ".",
        str "+", str ".", str "ID=g\r1"], charIn ' ' c = false)
      ∧ lineFields (joinWith (str "\t")
            [str "c1", str "src", str "gene", str "1", str "100", str ".",
             str "+", str ".", str "ID=g\r1"])
          ≠ [str "c1", str "src", str "gene", str "1", str "100", str ".",
             str "+", str ".", str "ID=g\r1"]) := by
  refine ⟨⟨by decide, by decide, by decide⟩, by decide, by decide⟩

/-- **C9** (amended).  The hierarchy builder splits lines on arbitrary
whitespace, not on the tab delimiter: for every tab-joined record whose
columns are non-empty and contain no whitespace character — the empty and
non-space-whitespace columns of the counterexample force both
strengthenings of the claim's "no column contains a space" — the fields it
obtains (`l.rstrip().split()`) agree with the tab-split columns, while for
a concrete record whose attribute column contains a space the two
disagree, the whitespace split truncating the attribute column at the
space. -/
theorem whitespace_split_vs_tab :
    (∀ cols : List Chars, cols ≠ [] →
      (∀ c ∈ cols, c ≠ [] ∧ ∀ ch ∈ c, pyIsSpace ch = false) →
      lineFields (joinWith (str "\t") cols) = cols
      ∧ splitCh '\t' (pyRstrip (joinWith (str "\t") cols)) = cols)
    ∧ lineFields (str "c1\tsrc\tgene\t1\t100\t.\t+\t.\tID=g1;note=a b")
        ≠ splitCh '\t'
            (pyRstrip (str "c1\tsrc\tgene\t1\t100\t.\t+\t.\tID=g1;note=a b"))
    ∧ (lineFields (str "c1\tsrc\tgene\t1\t100\t.\t+\t.\tID=g1;note=a b")).getD
          8 []
        = str "ID=g1;note=a" := by
  refine ⟨?_, by decide, by decide⟩
  intro cols hne h
  have hr := pyRstrip_joinTab cols hne h
  constructor
  · show pySplitWs (pyRstrip (joinWith (str "\t") cols)) = cols
    rw [hr]
    exact pySplitWs_joinTab cols hne h
  · rw [hr]
    refine splitCh_joinTab cols hne ?_
    intro c hc ch hch heq
    have := (h c hc).2 ch hch
    rw [heq] at this
    exact absurd this (by decide)

/-- Witness for `whitespace_split_vs_tab`: its universal part applied to a
concrete three-column record. -/
theorem whitespace_split_vs_tab_witness :
    lineFields (joinWith (str "\t") [str "c1", str "gene", str "ID=g1"])
      = [str "c1", str "gene", str "ID=g1"] :=
  (whitespace_split_vs_tab.1 [str "c1", str "gene", str "ID=g1"]
    (by decide) (by decide)).1

/-!
### C6: orphan transcripts and CDS records are silently excluded
-/

/-- The (lower-cased) featuretype column of a line, as both hierarchy
passes compute it. -/
def ftOfLine (l : Chars) : Chars := toLowerS ((lineFields l).getD 2 [])

/-- The `parent` attribute of a line, as both hierarchy passes compute
it. -/
def parentOfLine (l : Chars) : Option Chars :=
  lookupLast (attrsDict ((lineFields l).getD 8 [])) (str "parent")

/-- A line whose featuretype is not `gene` contributes nothing to
`parse_proteincoding_genes`. -/
theorem pcStep_skip {l : Chars} (h : ftOfLine l ≠ str "gene")
    (acc : List Chars) : pcStep acc l = acc := by
  unfold ftOfLine at h
  unfold pcStep
  dsimp only
  split_ifs with h1 h2 h3
  · rfl
  · rfl
  · simp only [Bool.and_eq_true, decide_eq_true_eq] at h3
    exact absurd h3.2 h
  · rfl

/-- A transcript line whose parent is outside the root-gene set leaves the
child-scan state untouched. -/
theorem hierStep_skip_transcript {G : List Chars} {l : Chars} {p : Chars}
    (hft : ftOfLine l = str "mrna" ∨ ftOfLine l = str "transcript")
    (hp : parentOfLine l = some p) (hmem : p ∉ G) (st : HState) :
    hierStep G st l = st := by
  unfold ftOfLine at hft
  unfold parentOfLine at hp
  unfold hierStep
  dsimp only
  split_ifs with h1 h2 h3 h4 h5
  · rfl
  · rfl
  · rw [hp] at h4
    simp only [Option.getD_some, Bool.and_eq_true] at h4
    exact absurd (memS_iff.mp h4.1) hmem
  · rfl
  · rcases hft with hft | hft
    · rw [hft] at h5
      rw [show decide (str "mrna" = str "cds") = false from by decide] at h5
      exact absurd h5 (by simp)
    · rw [hft] at h5
      rw [show decide (str "transcript" = str "cds") = false from by decide]
        at h5
      exact absurd h5 (by simp)
  · rfl

/-- A CDS line marks exactly its parent in `transcript_to_cds` and touches
nothing else. -/
theorem hierStep_cds {G : List Chars} {l : Chars} {p : Chars}
    (hcm : isCommentL l = false) (hlen : ¬(lineFields l).length < 9)
    (hft : ftOfLine l = str "cds") (hp : parentOfLine l = some p)
    (st : HState) :
    hierStep G st l = (st.1, insertIfAbsent st.2 p) := by
  unfold ftOfLine at hft
  unfold parentOfLine at hp
  unfold hierStep
  dsimp only
  rw [hcm]
  simp only [Bool.false_eq_true, if_false]
  rw [if_neg hlen, hft, hp]
  split_ifs with hA hB hC
  · rw [show (decide (str "cds" = str "mrna")
        || decide (str "cds" = str "transcript")) = false from by decide]
      at hA
    exact absurd hA (by simp)
  · rw [show (decide (str "cds" = str "mrna")
        || decide (str "cds" = str "transcript")) = false from by decide]
      at hA
    exact absurd hA (by simp)
  · rw [Option.getD_some]
  · refine absurd ?_ hC
    rw [show decide (str "cds" = str "cds") = true from by decide]
    unfold hasKey
    rw [hp]
    rfl

/-- One child-scan step preserves the relation "same transcript registry;
CDS marks differ exactly by `p`". -/
theorem hierStep_rel (G : List Chars) (p : Chars) (l' : Chars)
    (st1 st2 : HState) (h1 : st1.1 = st2.1)
    (h2 : ∀ t, t ∈ st1.2 ↔ t ∈ st2.2 ∨ t = p) :
    (hierStep G st1 l').1 = (hierStep G st2 l').1
    ∧ ∀ t, t ∈ (hierStep G st1 l').2
        ↔ (t ∈ (hierStep G st2 l').2 ∨ t = p) := by
  unfold hierStep
  dsimp only
  split_ifs
  · exact ⟨h1, h2⟩
  · exact ⟨h1, h2⟩
  · exact ⟨by rw [h1], h2⟩
  · exact ⟨h1, h2⟩
  · refine ⟨h1, fun t => ?_⟩
    simp only [mem_insertIfAbsent, h2 t]
    tauto
  · exact ⟨h1, h2⟩

/-- The child-scan fold preserves the relation of `hierStep_rel`. -/
theorem hier_fold_rel (G : List Chars) (p : Chars) :
    ∀ (rest : List Chars) (st1 st2 : HState), st1.1 = st2.1 →
      (∀ t, t ∈ st1.2 ↔ t ∈ st2.2 ∨ t = p) →
      (rest.foldl (hierStep G) st1).1 = (rest.foldl (hierStep G) st2).1
      ∧ ∀ t, t ∈ (rest.foldl (hierStep G) st1).2
          ↔ (t ∈ (rest.foldl (hierStep G) st2).2 ∨ t = p) := by
  intro rest
  induction rest with
  | nil => intro st1 st2 h1 h2; exact ⟨h1, h2⟩
  | cons l' ls ih =>
    intro st1 st2 h1 h2
    rw [List.foldl_cons, List.foldl_cons]
    obtain ⟨d1, d2⟩ := hierStep_rel G p l' st1 st2 h1 h2
    exact ih _ _ d1 d2

/-- `List.any` only looks at the values of the test on the members. -/
theorem any_congr_mem {α : Type} {l : List α} {p q : α → Bool}
    (h : ∀ x ∈ l, p x = q x) : l.any p = l.any q := by
  induction l with
  | nil => rfl
  | cons x xs ih =>
    rw [List.any_cons, List.any_cons, h x (List.mem_cons_self x xs),
      ih (fun y hy => h y (List.mem_cons_of_mem x hy))]

/-- Registered transcripts live in the value set of the registry. -/
theorem transcriptsOf_subset_tids (g2t : List (Chars × Chars)) (g : Chars) :
    ∀ t ∈ transcriptsOf g2t g, t ∈ g2t.map Prod.snd := by
  intro t ht
  unfold transcriptsOf at ht
  rw [List.mem_map] at ht ⊢
  obtain ⟨pr, hpr, rfl⟩ := ht
  exact ⟨pr, List.mem_of_mem_filter hpr, rfl⟩

/-- The classification loop reads the CDS set only through membership of
registered transcripts. -/
theorem classify_eq_of_t2c (g2t : List (Chars × Chars))
    (t2c1 t2c2 : List Chars)
    (h : ∀ t ∈ g2t.map Prod.snd, memS t t2c1 = memS t t2c2) :
    ∀ (genes : List Chars) (acc : Nat × Nat × List Chars),
      genes.foldl (classifyStep g2t t2c1) acc
        = genes.foldl (classifyStep g2t t2c2) acc := by
  have hstep : ∀ acc g, classifyStep g2t t2c1 acc g
      = classifyStep g2t t2c2 acc g := by
    intro acc g
    unfold classifyStep
    dsimp only
    rw [any_congr_mem
      (fun t ht => h t (transcriptsOf_subset_tids g2t g t ht))]
  intro genes
  induction genes with
  | nil => intro acc; rfl
  | cons g gs ih =>
    intro acc
    rw [List.foldl_cons, List.foldl_cons, hstep, ih]

/-- **C6.** Adding a transcript record whose parent is not in the selected
root-gene set, or a CDS record whose parent is not a registered transcript
id, anywhere in the input, leaves the `gene_to_children` classification
summary `(total, missingTranscripts, missingCDS, complete)` unchanged:
such records are silently excluded.  (Removal is the equation read right to
left.) -/
theorem hierarchy_orphans_ignored (pre post : List Chars) (l : Chars)
    (hcm : isCommentL l = false) (hlen : ¬(lineFields l).length < 9)
    (hcase :
      ((ftOfLine l = str "mrna" ∨ ftOfLine l = str "transcript")
        ∧ ∃ p, parentOfLine l = some p ∧ p ∉ pcGenesL (pre ++ post))
      ∨ (ftOfLine l = str "cds"
        ∧ ∃ p, parentOfLine l = some p
            ∧ p ∉ registeredTids (pre ++ post))) :
    gtcSummary (pre ++ l :: post) = gtcSummary (pre ++ post) := by
  have hftne : ftOfLine l ≠ str "gene" := by
    rcases hcase with ⟨hft | hft, -⟩ | ⟨hft, -⟩ <;> rw [hft] <;> decide
  have hG : pcGenesL (pre ++ l :: post) = pcGenesL (pre ++ post) := by
    unfold pcGenesL
    rw [List.foldl_append, List.foldl_cons, pcStep_skip hftne,
      ← List.foldl_append]
  rcases hcase with ⟨hft, p, hp, hmem⟩ | ⟨hft, p, hp, hmem⟩
  · unfold gtcSummary
    dsimp only
    rw [hG, List.foldl_append, List.foldl_cons,
      hierStep_skip_transcript hft hp hmem, ← List.foldl_append]
  · unfold registeredTids at hmem
    rw [List.foldl_append] at hmem
    unfold gtcSummary
    dsimp only
    rw [hG]
    set G := pcGenesL (pre ++ post) with hGdef
    set S := pre.foldl (hierStep G) (([], []) : HState) with hSdef
    have hscanL : (pre ++ l :: post).foldl (hierStep G) (([], []) : HState)
        = post.foldl (hierStep G) (S.1, insertIfAbsent S.2 p) := by
      rw [List.foldl_append, List.foldl_cons, ← hSdef,
        hierStep_cds hcm hlen hft hp]
    have hscanR : (pre ++ post).foldl (hierStep G) (([], []) : HState)
        = post.foldl (hierStep G) S := by
      rw [List.foldl_append]
    rw [hscanL, hscanR]
    obtain ⟨e1, e2⟩ := hier_fold_rel G p post (S.1, insertIfAbsent S.2 p) S
      rfl (fun t => by simp only [mem_insertIfAbsent])
    have hmem' : p ∉ (post.foldl (hierStep G) S).1.map Prod.snd := hmem
    have hBool : ∀ t ∈ (post.foldl (hierStep G) S).1.map Prod.snd,
        memS t (post.foldl (hierStep G) (S.1, insertIfAbsent S.2 p)).2
          = memS t (post.foldl (hierStep G) S).2 := by
      intro t ht
      have htne : t ≠ p := fun he => hmem' (he ▸ ht)
      have hiff := e2 t
      cases hx : memS t (post.foldl (hierStep G) (S.1, insertIfAbsent S.2 p)).2
        <;> cases hy : memS t (post.foldl (hierStep G) S).2 <;> try rfl
      · exact absurd (memS_iff.mpr (hiff.mpr (Or.inl (memS_iff.mp hy))))
          (by simp [hx])
      · exact absurd
          (memS_iff.mpr ((hiff.mp (memS_iff.mp hx)).resolve_right htne))
          (by simp [hy])
    rw [e1, classify_eq_of_t2c _ _ _ hBool G (0, 0, [])]

/-- Witness for `hierarchy_orphans_ignored`: inserting a CDS record whose
parent `zzz` is not a registered transcript changes nothing. -/
theorem hierarchy_orphans_ignored_witness :
    gtcSummary
      ([str "chr1 src gene 1 100 . + . ID=g1;gene_biotype=protein_coding",
        str "chr1 src mRNA 1 100 . + . ID=t1;Parent=g1"]
       ++ str "c s CDS 1 5 . + . Parent=zzz" :: [])
    = gtcSummary
      ([str "chr1 src gene 1 100 . + . ID=g1;gene_biotype=protein_coding",
        str "chr1 src mRNA 1 100 . + . ID=t1;Parent=g1"] ++ []) :=
  hierarchy_orphans_ignored
    [str "chr1 src gene 1 100 . + . ID=g1;gene_biotype=protein_coding",
     str "chr1 src mRNA 1 100 . + . ID=t1;Parent=g1"]
    [] (str "c s CDS 1 5 . + . Parent=zzz") (by decide) (by decide)
    (Or.inr ⟨by decide, str "zzz", by decide, by decide⟩)

/-!
### C8: the codec round trip
-/

/-- `lstrip` is the identity when the first character is not whitespace. -/
theorem pyLstrip_id {s : Chars}
    (h : ∀ c, s.head? = some c → pyIsSpace c = false) : pyLstrip s = s := by
  unfold pyLstrip
  cases s with
  | nil => rfl
  | cons c cs => simp [List.dropWhile, h c rfl]

/-- `rstrip` is the identity when the last character is not whitespace. -/
theorem pyRstrip_id {s : Chars}
    (h : ∀ c, s.getLast? = some c → pyIsSpace c = false) : pyRstrip s = s := by
  unfold pyRstrip
  cases hr : s.reverse with
  | nil =>
    rw [List.reverse_eq_nil_iff] at hr
    subst hr
    rfl
  | cons c cs =>
    have hc : pyIsSpace c = false := by
      apply h
      rw [← List.head?_reverse, hr]
      rfl
    rw [List.dropWhile_cons]
    rw [hc]
    simp only [Bool.false_eq_true, if_false]
    rw [← hr, List.reverse_reverse]

/-- `strip` is the identity when both end characters are not whitespace. -/
theorem pyStrip_id {s : Chars}
    (hh : ∀ c, s.head? = some c → pyIsSpace c = false)
    (hl : ∀ c, s.getLast? = some c → pyIsSpace c = false) :
    pyStrip s = s := by
  unfold pyStrip
  rw [pyLstrip_id hh]
  exact pyRstrip_id hl

/-- `strip` is the identity on whitespace-free strings. -/
theorem pyStrip_id_noWs {s : Chars}
    (h : ∀ c ∈ s, pyIsSpace c = false) : pyStrip s = s := by
  refine pyStrip_id (fun c hc => ?_) (fun c hc => ?_)
  · exact h c (List.mem_of_mem_head? (by simp [hc]))
  · exact h c (List.mem_of_mem_getLast? (by simp [hc]))

/-- `strip` swallows one leading space. -/
theorem pyStrip_cons_space (s : Chars) : pyStrip (' ' :: s) = pyStrip s := by
  unfold pyStrip pyLstrip
  rw [List.dropWhile_cons, show pyIsSpace ' ' = true from rfl]
  rfl

/-- Splitting at the first occurrence of `a` after a factor free of `a`
lands exactly at the boundary. -/
theorem splitAtFirstC_boundary (a : Char) :
    ∀ (k : Chars), (∀ c ∈ k, c ≠ a) → ∀ (rest acc : Chars),
      splitAtFirstCAux a (k ++ a :: rest) acc = (acc.reverse ++ k, rest) := by
  intro k
  induction k with
  | nil =>
    intro _ rest acc
    rw [List.nil_append]
    unfold splitAtFirstCAux
    rw [if_pos rfl]
    simp
  | cons c cs ih =>
    intro h rest acc
    rw [List.cons_append]
    unfold splitAtFirstCAux
    rw [if_neg (h c (List.mem_cons_self c cs)),
      ih (fun x hx => h x (List.mem_cons_of_mem c hx)) rest (c :: acc)]
    simp

/-- `charIn` distributes over append. -/
theorem charIn_append (c : Char) (a b : Chars) :
    charIn c (a ++ b) = (charIn c a || charIn c b) := by
  simp [charIn, List.any_append]

/-- `charIn` is `false` exactly on strings avoiding the character. -/
theorem charIn_false_iff {c : Char} {s : Chars} :
    charIn c s = false ↔ ∀ ch ∈ s, ch ≠ c := by
  simp [charIn, List.any_eq_false]

/-- Splitting a single-character join on that character recovers the
parts. -/
theorem splitCh_join (d : Char) :
    ∀ (parts : List Chars), parts ≠ [] →
      (∀ p ∈ parts, charIn d p = false) →
      splitCh d (joinWith [d] parts) = parts := by
  intro parts
  induction parts with
  | nil => intro h _; exact absurd rfl h
  | cons e es ih =>
    intro _ h
    have hews := charIn_false_iff.mp (h e (List.mem_cons_self e es))
    cases es with
    | nil =>
      have h0 : splitCh d (joinWith [d] [e]) = splitChAux d (e ++ []) [] := by
        rw [List.append_nil, joinWith_single]
        rfl
      rw [h0, splitChAux_no_hit e hews [] [], splitChAux_nil]
      simp
    | cons e2 es2 =>
      have h0 : splitCh d (joinWith [d] (e :: e2 :: es2))
          = splitChAux d (e ++ (d :: joinWith [d] (e2 :: es2))) [] := by
        rw [joinWith_cons₂]
        rfl
      rw [h0, splitChAux_no_hit e hews _ [], List.append_nil,
        splitChAux_cons, if_pos rfl, List.reverse_reverse]
      have hrec := ih (by simp) (fun x hx => h x (List.mem_cons_of_mem e hx))
      rw [show splitChAux d (joinWith [d] (e2 :: es2)) []
          = splitCh d (joinWith [d] (e2 :: es2)) from rfl, hrec]

/-- `splitChAux` with a non-empty accumulator prepends the accumulator to
the first emitted token. -/
theorem splitChAux_acc (d : Char) :
    ∀ (X : Chars) (acc : Chars), ∃ hd tl, splitChAux d X [] = hd :: tl
      ∧ splitChAux d X acc = (acc.reverse ++ hd) :: tl := by
  intro X
  induction X with
  | nil => intro acc; exact ⟨[], [], rfl, by simp [splitChAux_nil]⟩
  | cons x xs ih =>
    intro acc
    by_cases hx : x = d
    · subst hx
      refine ⟨[], splitChAux x xs [], ?_, ?_⟩
      · rw [splitChAux_cons, if_pos rfl]
        rfl
      · rw [splitChAux_cons, if_pos rfl]
        simp
    · obtain ⟨hd, tl, h1, h2⟩ := ih (x :: acc)
      obtain ⟨hd', tl', h1', h2'⟩ := ih [x]
      rw [h1'] at h1
      injection h1 with ha hb
      subst ha
      subst hb
      refine ⟨x :: hd', tl', ?_, ?_⟩
      · rw [splitChAux_cons, if_neg hx]
        simpa using h2'
      · rw [splitChAux_cons, if_neg hx, h2]
        simp


/-- Splitting a GTF serialization on `";"`: the first entry comes out
clean, each later entry keeps the leading space of its `"; "` join, and
the trailing `";"` contributes a final empty token. -/
theorem splitCh_gtf :
    ∀ (es : List Chars) (e : Chars), (∀ p ∈ e :: es, charIn ';' p = false) →
      splitCh ';' (joinWith (str "; ") (e :: es) ++ [';'])
        = (e :: es.map (fun p => ' ' :: p)) ++ [[]] := by
  intro es
  induction es with
  | nil =>
    intro e h
    have hews := charIn_false_iff.mp (h e (List.mem_cons_self e []))
    have h0 : splitCh ';' (joinWith (str "; ") [e] ++ [';'])
        = splitChAux ';' (e ++ [';']) [] := by
      rw [joinWith_single]
      rfl
    rw [h0, show ([';'] : Chars) = ';' :: [] from rfl,
      splitChAux_no_hit e hews [';'] [], List.append_nil, splitChAux_cons,
      if_pos rfl, List.reverse_reverse, splitChAux_nil]
    rfl
  | cons e2 es2 ih =>
    intro e h
    have hews := charIn_false_iff.mp (h e (List.mem_cons_self e _))
    have hrest : ∀ p ∈ e2 :: es2.map (fun q => q), charIn ';' p = false := by
      intro p hp
      simp only [List.map_id_fun', id] at hp
      exact h p (List.mem_cons_of_mem e hp)
    have hrec := ih e2 (by
      intro p hp
      exact h p (List.mem_cons_of_mem e hp))
    have h0 : joinWith (str "; ") (e :: e2 :: es2) ++ [';']
        = e ++ (str "; "
            ++ (joinWith (str "; ") (e2 :: es2) ++ [';'])) := by
      rw [joinWith_cons₂]
      simp [List.append_assoc]
    rw [h0]
    have h1 : splitCh ';' (e ++ (str "; "
        ++ (joinWith (str "; ") (e2 :: es2) ++ [';'])))
        = splitChAux ';'
            (';' :: ' ' :: (joinWith (str "; ") (e2 :: es2) ++ [';']))
            e.reverse := by
      rw [show splitCh ';' (e ++ (str "; "
          ++ (joinWith (str "; ") (e2 :: es2) ++ [';'])))
          = splitChAux ';' (e ++ (str "; "
            ++ (joinWith (str "; ") (e2 :: es2) ++ [';']))) [] from rfl,
        splitChAux_no_hit e hews _ [], List.append_nil]
      rfl
    rw [h1, splitChAux_cons, if_pos rfl, List.reverse_reverse,
      splitChAux_cons, if_neg (by decide)]
    obtain ⟨hd, tl, hA, hB⟩ :=
      splitChAux_acc ';' (joinWith (str "; ") (e2 :: es2) ++ [';']) [' ']
    rw [show splitChAux ';' (joinWith (str "; ") (e2 :: es2) ++ [';']) []
        = splitCh ';' (joinWith (str "; ") (e2 :: es2) ++ [';']) from rfl,
      hrec] at hA
    cases hA
    rw [hB]
    simp

/-- `parseTok` on a clean GFF3 `key=value` token. -/
theorem parseTok_gff3_entry (k v : Chars) (hk : k ≠ [])
    (hkws : ∀ c ∈ k, pyIsSpace c = false) (hke : charIn '=' k = false)
    (hvws : ∀ c ∈ v, pyIsSpace c = false) :
    parseTok '=' (k ++ '=' :: v) = some (k, v) := by
  unfold parseTok
  dsimp only
  have hstrip : pyStrip (k ++ '=' :: v) = k ++ '=' :: v := by
    refine pyStrip_id_noWs ?_
    intro c hc
    rcases List.mem_append.mp hc with hc | hc
    · exact hkws c hc
    · rcases List.mem_cons.mp hc with rfl | hc
      · decide
      · exact hvws c hc
  rw [hstrip, if_neg (by simp), if_pos (by
    rw [charIn_append, hke]
    simp [charIn])]
  unfold splitAtFirstC
  rw [splitAtFirstC_boundary '=' k (charIn_false_iff.mp hke) v []]
  rfl

/-- `parseTok` on a clean GTF `key "value"` token: the value keeps the
quotes the serializer added. -/
theorem parseTok_gtf_entry (k v : Chars) (hk : k ≠ [])
    (hkws : ∀ c ∈ k, pyIsSpace c = false) :
    parseTok ' ' (k ++ (' ' :: '"' :: (v ++ ['"'])))
      = some (k, '"' :: (v ++ ['"'])) := by
  unfold parseTok
  dsimp only
  have hknospace : ∀ c ∈ k, c ≠ ' ' := by
    intro c hc he
    have := hkws c hc
    rw [he] at this
    exact absurd this (by decide)
  have heq : k ++ (' ' :: '"' :: (v ++ ['"']))
      = (k ++ (' ' :: '"' :: v)) ++ ['"'] := by
    simp
  have hstrip : pyStrip (k ++ (' ' :: '"' :: (v ++ ['"'])))
      = k ++ (' ' :: '"' :: (v ++ ['"'])) := by
    refine pyStrip_id (fun c hc => ?_) (fun c hc => ?_)
    · cases k with
      | nil => exact absurd rfl hk
      | cons x xs =>
        have hhd : ((x :: xs) ++ (' ' :: '"' :: (v ++ ['"']))).head?
            = some x := rfl
        rw [hhd] at hc
        have hxc : x = c := Option.some.inj hc
        rw [← hxc]
        exact hkws x (List.mem_cons_self x xs)
    · rw [heq, List.getLast?_concat] at hc
      cases hc
      decide
  rw [hstrip, if_neg (by simp [hk]), if_pos (by
    rw [charIn_append]
    simp [charIn])]
  unfold splitAtFirstC
  rw [splitAtFirstC_boundary ' ' k hknospace _ []]
  rfl

/-- `parseTok` ignores the leading space a `"; "` join leaves on a
token. -/
theorem parseTok_cons_space (asgn : Char) (e : Chars) :
    parseTok asgn (' ' :: e) = parseTok asgn e := by
  unfold parseTok
  rw [pyStrip_cons_space]

/-- The GFF3 token walk over clean `key=value` entries recovers the
map. -/
theorem gff3_tokens :
    ∀ (m : List (Chars × Chars)),
      (∀ kv ∈ m, kv.1 ≠ [] ∧ (∀ c ∈ kv.1, pyIsSpace c = false)
        ∧ charIn '=' kv.1 = false ∧ (∀ c ∈ kv.2, pyIsSpace c = false)) →
      (m.map (fun kv => kv.1 ++ '=' :: kv.2)).filterMap (parseTok '=')
        = m := by
  intro m
  induction m with
  | nil => intro _; rfl
  | cons kv rest ih =>
    intro h
    obtain ⟨h1, h2, h3, h4⟩ := h kv (List.mem_cons_self kv rest)
    rw [List.map_cons,
      List.filterMap_cons_some (parseTok_gff3_entry kv.1 kv.2 h1 h2 h3 h4),
      ih (fun x hx => h x (List.mem_cons_of_mem kv hx))]

/-- The GTF token walk over space-prefixed `key "value"` entries returns
the map with quote-wrapped values. -/
theorem gtf_tokens :
    ∀ (m : List (Chars × Chars)),
      (∀ kv ∈ m, kv.1 ≠ [] ∧ (∀ c ∈ kv.1, pyIsSpace c = false)) →
      ((m.map (fun kv => kv.1 ++ (' ' :: '"' :: (kv.2 ++ ['"'])))).map
          (fun p => ' ' :: p)).filterMap (parseTok ' ')
        = m.map (fun kv => (kv.1, '"' :: (kv.2 ++ ['"']))) := by
  intro m
  induction m with
  | nil => intro _; rfl
  | cons kv rest ih =>
    intro h
    obtain ⟨h1, h2⟩ := h kv (List.mem_cons_self kv rest)
    rw [List.map_cons, List.map_cons,
      List.filterMap_cons_some (by
        rw [parseTok_cons_space]
        exact parseTok_gtf_entry kv.1 kv.2 h1 h2),
      ih (fun x hx => h x (List.mem_cons_of_mem kv hx)), List.map_cons]

/-- `charIn` on a cons cell. -/
theorem charIn_cons (c d : Char) (s : Chars) :
    charIn c (d :: s) = (decide (d = c) || charIn c s) := by
  simp [charIn]

/-- A clean GFF3 entry contains no `";"`. -/
theorem gff3_entry_no_semi (k v : Chars) (hk : charIn ';' k = false)
    (hv : charIn ';' v = false) : charIn ';' (k ++ '=' :: v) = false := by
  rw [charIn_append, hk, charIn_cons, hv]
  decide

/-- A clean GTF entry contains no `";"`. -/
theorem gtf_entry_no_semi (k v : Chars) (hk : charIn ';' k = false)
    (hv : charIn ';' v = false) :
    charIn ';' (k ++ (' ' :: '"' :: (v ++ ['"']))) = false := by
  rw [charIn_append, hk, charIn_cons, charIn_cons, charIn_append, hv]
  decide

/-- **C8** (amended).  With the codec modelled from the spec, the
round-trip law holds for the GFF3-like dialect — for every ordered map
whose keys are non-empty, whitespace-free and free of `"="`/`";"`, whose
values are whitespace-free and `";"`-free, and which triggers no quoting
(in particular exempt list-valued keys keep their unquoted internal
commas) — while for the GTF-like dialect parsing the serialization
returns every value still wrapped in the quotes serialization added
(`parse` has no unquoting step), so the original map is recovered only up
to quote-wrapping of the values. -/
theorem codec_roundtrip_amended :
    (∀ m : List (Chars × Chars),
      (∀ kv ∈ m, kv.1 ≠ [] ∧ (∀ c ∈ kv.1, pyIsSpace c = false)
        ∧ charIn '=' kv.1 = false ∧ charIn ';' kv.1 = false
        ∧ (∀ c ∈ kv.2, pyIsSpace c = false) ∧ charIn ';' kv.2 = false
        ∧ quoteNeeded kv.1 kv.2 = false) →
      parseAttrs ';' '=' (serializeGFF3 m) = m)
    ∧ (∀ m : List (Chars × Chars),
      (∀ kv ∈ m, kv.1 ≠ [] ∧ (∀ c ∈ kv.1, pyIsSpace c = false)
        ∧ charIn ';' kv.1 = false ∧ charIn ';' kv.2 = false) →
      parseAttrs ';' ' ' (serializeGTF m)
        = m.map (fun kv => (kv.1, '"' :: (kv.2 ++ ['"'])))) := by
  constructor
  · intro m hm
    cases m with
    | nil => rfl
    | cons kv0 rest =>
      have hq : ∀ kv ∈ kv0 :: rest,
          (kv.1 ++ '=' :: (if quoteNeeded kv.1 kv.2 then
            '"' :: kv.2 ++ ['"'] else kv.2)) = kv.1 ++ '=' :: kv.2 := by
        intro kv hkv
        rw [(hm kv hkv).2.2.2.2.2.2]
        simp
      have hser : serializeGFF3 (kv0 :: rest)
          = joinWith [';']
              ((kv0 :: rest).map (fun kv => kv.1 ++ '=' :: kv.2)) := by
        unfold serializeGFF3
        rw [List.map_congr_left hq]
        rfl
      unfold parseAttrs
      rw [hser, splitCh_join ';' _ (by simp) (by
        intro p hp
        rw [List.mem_map] at hp
        obtain ⟨kv, hkv, rfl⟩ := hp
        obtain ⟨-, -, -, hks, -, hvs, -⟩ := hm kv hkv
        exact gff3_entry_no_semi kv.1 kv.2 hks hvs)]
      exact gff3_tokens (kv0 :: rest) (fun kv hkv =>
        ⟨(hm kv hkv).1, (hm kv hkv).2.1, (hm kv hkv).2.2.1,
          (hm kv hkv).2.2.2.2.1⟩)
  · intro m hm
    cases m with
    | nil => rfl
    | cons kv0 rest =>
      have hser : serializeGTF (kv0 :: rest)
          = joinWith (str "; ")
              ((kv0 :: rest).map
                (fun kv => kv.1 ++ ' ' :: '"' :: kv.2 ++ ['"']))
            ++ [';'] := rfl
      have hform : (kv0 :: rest).map
            (fun kv => kv.1 ++ ' ' :: '"' :: kv.2 ++ ['"'])
          = (kv0 :: rest).map
            (fun kv => kv.1 ++ (' ' :: '"' :: (kv.2 ++ ['"']))) :=
        List.map_congr_left (by intro kv _; simp)
      obtain ⟨h01, h02, h03, h04⟩ := hm kv0 (List.mem_cons_self kv0 rest)
      unfold parseAttrs
      rw [hser, hform, List.map_cons,
        splitCh_gtf (rest.map
            (fun kv => kv.1 ++ (' ' :: '"' :: (kv.2 ++ ['"']))))
          (kv0.1 ++ (' ' :: '"' :: (kv0.2 ++ ['"'])))
          (by
            intro p hp
            rcases List.mem_cons.mp hp with rfl | hp
            · exact gtf_entry_no_semi kv0.1 kv0.2 h03 h04
            · rw [List.mem_map] at hp
              obtain ⟨kv, hkv, rfl⟩ := hp
              obtain ⟨-, -, hks, hvs⟩ :=
                hm kv (List.mem_cons_of_mem kv0 hkv)
              exact gtf_entry_no_semi kv.1 kv.2 hks hvs),
        List.filterMap_append,
        List.filterMap_cons_some (parseTok_gtf_entry kv0.1 kv0.2 h01 h02),
        gtf_tokens rest (fun kv hkv =>
          ⟨(hm kv (List.mem_cons_of_mem kv0 hkv)).1,
            (hm kv (List.mem_cons_of_mem kv0 hkv)).2.1⟩),
        List.map_cons]
      simp
      rfl

/-- Witness for `codec_roundtrip_amended`: a concrete GFF3 map with an
exempt `Dbxref` list value round-trips, and a concrete GTF map parses back
with quote-wrapped values. -/
theorem codec_roundtrip_amended_witness :
    parseAttrs ';' '='
        (serializeGFF3 [(str "ID", str "gene1"), (str "Dbxref", str "a,b")])
      = [(str "ID", str "gene1"), (str "Dbxref", str "a,b")]
    ∧ parseAttrs ';' ' ' (serializeGTF [(str "gene_id", str "G1")])
      = [(str "gene_id", str "\"G1\"")] :=
  ⟨codec_roundtrip_amended.1
      [(str "ID", str "gene1"), (str "Dbxref", str "a,b")] (by decide),
   codec_roundtrip_amended.2 [(str "gene_id", str "G1")] (by decide)⟩

end GffSpec
